import Mathlib

/-!
Verification development for the Process-Mining-Tool repository.

Shallow embedding conventions:
* Go `float64` values are modelled as exact rationals (`ℚ`); where the code can
  produce a non-finite float (NaN/±Inf from a division by zero) the value is
  modelled as `Option ℚ` with `none` standing for a non-finite result.
* Go `time.Time` instants are modelled as rational seconds; the zero value of
  `time.Time` (checked by `IsZero`) is modelled as the timestamp `0`.
* Go maps are modelled as association lists.  Go's map iteration order is
  unspecified; the model iterates in key-insertion order.  Properties proved
  below are either independent of that order or explicitly concern the model's
  fixed order (no claim depends on Go's randomised order).
* Display-only text built with `fmt.Sprintf` (occurrence details, edge labels)
  is abstracted as the empty string: no claim constrains it and exact float
  formatting is presentation-only.
-/

namespace ProcessMining

/-- Go `math.Round`: nearest integer, ties rounded away from zero
(floor(x + 1/2) for non-negative x, ceil(x − 1/2) otherwise). -/
def goRound (x : ℚ) : ℤ :=
  if 0 ≤ x then (x + 1/2).floor else (x - 1/2).ceil

/-- `math.Round(x*10)/10` — round to one decimal place as the Go code does. -/
def round1 (x : ℚ) : ℚ :=
  (goRound (x * 10) : ℚ) / 10

/-- `int(math.Round(x))` for the non-negative index computations. -/
def goRoundNat (x : ℚ) : ℕ :=
  (goRound x).toNat

/-- Ascending sort, the model of Go's `sort.Float64s`. -/
def sortQ (l : List ℚ) : List ℚ :=
  l.mergeSort (fun a b => decide (a ≤ b))

/-- Index list for a Go loop `for i := a; i < n; i++`. -/
def idxFrom (a n : ℕ) : List ℕ :=
  List.range' a (n - a)

/-- Association-list lookup (Go map read). -/
def lookupA {α : Type} (k : String) : List (String × α) → Option α
  | [] => none
  | (k', v) :: rest => if k' = k then some v else lookupA k rest

/-- Association-list insert-or-replace (Go map write), keeping insertion order. -/
def upsertA {α : Type} (k : String) (v : α) : List (String × α) → List (String × α)
  | [] => [(k, v)]
  | (k', v') :: rest => if k' = k then (k, v) :: rest else (k', v') :: upsertA k v rest

/-- Values of an association list (Go `for _, v := range m`). -/
def valuesA {α : Type} (m : List (String × α)) : List α :=
  m.map Prod.snd

/-- metrics.Event — one event of the process log as the Analyzer sees it. -/
structure MEvent where
  sessionID : String
  timestamp : ℚ
  description : String
  result : String
deriving DecidableEq

instance : Inhabited MEvent := ⟨⟨"", 0, "", ""⟩⟩

/-- metrics.ProcessInstance — the event sequence of one process instance. -/
structure ProcessInstance where
  id : String
  events : List MEvent
deriving DecidableEq

/-- metrics.MetricDefinition — static description of one metric kind. -/
structure MetricDefinition where
  name : String
  category : String
  calculation : String
  impact : String
  threshold : ℚ
deriving DecidableEq

/-- metrics.MetricOccurrence — one concrete finding of a metric. -/
structure MetricOccurrence where
  instanceID : String
  value : ℚ
  wastedDurationSeconds : ℚ
  details : String
deriving DecidableEq

/-- metrics.InefficiencyMetric — aggregation of all occurrences of one metric. -/
structure InefficiencyMetric where
  definition : MetricDefinition
  occurrences : List MetricOccurrence
  totalValue : ℚ
  totalWastedDuration : ℚ
  count : ℕ
  exceeded : Bool
deriving DecidableEq

/-- metrics.MetricsReport.  The fields `MostFrequentActivities` and
`MostFrequentPaths` (top-5 lists whose tie order depends on Go's randomised
map iteration) and the `StageDuration*` fields (never assigned by `Analyze`)
are not modelled; no claim references them. -/
structure MetricsReport where
  totalProcessInstances : ℕ
  totalEvents : ℕ
  averageProcessDuration : ℚ
  medianProcessDuration : ℚ
  metrics : List InefficiencyMetric
deriving DecidableEq

/-- initMetricDefinitions — the fixed metric catalog, in source order.  Go holds
it in a map with unspecified iteration order; the model fixes source order. -/
def metricCatalog : List (String × MetricDefinition) :=
  [ ("Self-Loop",
      ⟨"Самозацикливание", "Зацикливание",
       "Обнаружение повторения одной операции подряд (A→A)",
       "Указывает на технические ошибки, переадресацию задач или дублирование в логе. Приводит к росту длительности.", 0⟩),
    ("Return to Previous Stage",
      ⟨"Возврат на предыдущий этап", "Зацикливание",
       "Обнаружение возврата к операции через одну (A→B→A)",
       "Возврат на доработку. Указывает на переделки или ошибки в процессе.", 0⟩),
    ("Ping-Pong",
      ⟨"Пинг-понг", "Зацикливание",
       "Обнаружение повторяющегося чередования двух операций (A→B→A→B)",
       "Неэффективное взаимодействие между этапами или ошибки маршрутизации.", 0⟩),
    ("Return to Start",
      ⟨"Возврат к началу", "Зацикливание",
       "Обнаружение возврата к первой операции процесса",
       "Перезапуск процесса из-за критических ошибок или несоответствия условий.", 0⟩),
    ("Rework",
      ⟨"Переделка", "Зацикливание",
       "Подсчёт повторений произвольной операции в экземпляре",
       "Необходимость исправления ошибок или доработок, увеличение времени выполнения.", 0⟩),
    ("Anomalously Long Stage",
      ⟨"Аномально долгий этап", "Длительность",
       "Выявление выбросов длительности этапов через межквартильный размах (IQR > Q3 + 1.5*IQR)",
       "Узкие места или проблемы производительности на конкретных этапах.", 0⟩),
    ("Increasing Stage Duration Trend",
      ⟨"Рост длительности этапа", "Длительность",
       "Линейная регрессия длительности этапов во времени (положительный наклон)",
       "Деградация производительности или рост сложности задач со временем.", 0⟩),
    ("Increasing Process Instance Duration Trend",
      ⟨"Рост длительности экземпляра", "Длительность",
       "Линейная регрессия длительности экземпляров во времени",
       "Общее ухудшение производительности процесса со временем.", 0⟩),
    ("Manual/Unlogged Stage",
      ⟨"Ручной/незарегистрированный этап", "Логирование",
       "Поиск этапов, занимающих >80% времени экземпляра",
       "Отсутствие логирования делает невозможной оценку процесса. Потенциальные ручные операции.", 80⟩),
    ("High Process Variability",
      ⟨"Высокая вариативность процесса", "Сложность",
       "Отношение уникальных путей к общему числу экземпляров (>80%)",
       "Каждый путь уникален — невозможность стандартизации, визуализации и оптимизации.", 80⟩),
    ("Low Process Completion Rate",
      ⟨"Низкий процент завершения", "Завершённость",
       "Доля экземпляров, завершивших полный цикл (начало→конец)",
       "Процесс прерывается или не доходит до конца, что снижает эффективность.", 100⟩),
    ("High Error Rate",
      ⟨"Высокий процент ошибок", "Качество",
       "Сравнение количества ошибок с успешными экземплярами",
       "Нестабильность процесса, превышение ошибок над успешными выполнениями.", 0⟩) ]

/-- Substring test at the head of a character list. -/
def charsHasAt : List Char → List Char → Bool
  | [], _ => true
  | _ :: _, [] => false
  | a :: as, b :: bs => a = b && charsHasAt as bs

/-- Substring test over character lists. -/
def charsHasSub (needle : List Char) : List Char → Bool
  | [] => needle.isEmpty
  | b :: bs => charsHasAt needle (b :: bs) || charsHasSub needle bs

/-- Go `strings.Contains haystack needle` (byte-level in Go; since UTF-8 is
self-synchronising a byte-level match of a whole needle coincides with a
character-level match). -/
def containsSub (needle s : String) : Bool :=
  charsHasSub needle.toList s.toList

/-- Analyzer.collectLoopingMetrics, per-instance Self-Loop scan
(`for i := 1; i < len; i++`, adjacent equal descriptions). -/
def selfLoopOccs (pi : ProcessInstance) : List (String × MetricOccurrence) :=
  (idxFrom 1 pi.events.length).filterMap fun i =>
    let e := pi.events.getD i default
    let e' := pi.events.getD (i - 1) default
    if e.description = e'.description then
      some ("Self-Loop",
        ⟨pi.id, 1, e.timestamp - e'.timestamp, ""⟩)
    else none

/-- Analyzer.collectLoopingMetrics, per-instance Return to Previous Stage scan
(`for i := 2; i < len; i++`, distance-2 equal descriptions). -/
def returnPrevOccs (pi : ProcessInstance) : List (String × MetricOccurrence) :=
  (idxFrom 2 pi.events.length).filterMap fun i =>
    let e := pi.events.getD i default
    let e' := pi.events.getD (i - 2) default
    if e.description = e'.description then
      some ("Return to Previous Stage",
        ⟨pi.id, 1, e.timestamp - e'.timestamp, ""⟩)
    else none

/-- Analyzer.collectLoopingMetrics, per-instance Ping-Pong scan
(`for i := 3; i < len; i++`, A→B→A→B window; wasted duration between the
events at indices i-3 and i-1, as implemented). -/
def pingPongOccs (pi : ProcessInstance) : List (String × MetricOccurrence) :=
  (idxFrom 3 pi.events.length).filterMap fun i =>
    if (pi.events.getD i default).description = (pi.events.getD (i - 2) default).description ∧
       (pi.events.getD (i - 1) default).description = (pi.events.getD (i - 3) default).description then
      some ("Ping-Pong",
        ⟨pi.id, 1,
         (pi.events.getD (i - 1) default).timestamp - (pi.events.getD (i - 3) default).timestamp, ""⟩)
    else none

/-- Analyzer.collectLoopingMetrics, per-instance Return to Start scan
(any event at index ≥ 1 equal to the first event's description). -/
def returnStartOccs (pi : ProcessInstance) : List (String × MetricOccurrence) :=
  if 1 < pi.events.length then
    (idxFrom 1 pi.events.length).filterMap fun i =>
      if (pi.events.getD i default).description = (pi.events.getD 0 default).description then
        some ("Return to Start", ⟨pi.id, 1, 0, ""⟩)
      else none
  else []

/-- Accumulates, for each description, its list of event indices in order
(the Go `eventIndices` map; the model keeps first-occurrence order where Go's
map iteration order is unspecified). -/
def groupIndicesAux : List MEvent → ℕ → List (String × List ℕ) → List (String × List ℕ)
  | [], _, m => m
  | e :: rest, i, m =>
      groupIndicesAux rest (i + 1)
        (upsertA e.description ((lookupA e.description m).getD [] ++ [i]) m)

def groupIndices (evs : List MEvent) : List (String × List ℕ) :=
  groupIndicesAux evs 0 []

/-- Rework wasted duration: elapsed time from each repeated occurrence
(excluding the last) to its immediate next event, when that next event exists. -/
def reworkWasted (evs : List MEvent) (indices : List ℕ) : ℚ :=
  (indices.take (indices.length - 1)).foldl
    (fun acc idx =>
      if idx + 1 < evs.length then
        acc + ((evs.getD (idx + 1) default).timestamp - (evs.getD idx default).timestamp)
      else acc) 0

/-- Analyzer.collectLoopingMetrics, per-instance Rework occurrences. -/
def reworkOccs (pi : ProcessInstance) : List (String × MetricOccurrence) :=
  (groupIndices pi.events).filterMap fun di =>
    if 1 < di.2.length then
      some ("Rework",
        ⟨pi.id, ((di.2.length - 1 : ℕ) : ℚ), reworkWasted pi.events di.2, ""⟩)
    else none

/-- Analyzer.collectLoopingMetrics — instances with fewer than 2 events are
skipped; the five looping scans are appended in source order. -/
def collectLoopingMetrics (instances : List ProcessInstance) :
    List (String × MetricOccurrence) :=
  instances.flatMap fun pi =>
    if pi.events.length < 2 then []
    else
      selfLoopOccs pi ++ returnPrevOccs pi ++ pingPongOccs pi ++
        returnStartOccs pi ++ reworkOccs pi

/-- Analyzer.collectManualStageMetrics — stages longer than 80% of the whole
instance duration (only when that total duration is positive). -/
def collectManualStageMetrics (instances : List ProcessInstance) :
    List (String × MetricOccurrence) :=
  instances.flatMap fun pi =>
    if pi.events.length < 2 then []
    else
      let total := (pi.events.getD (pi.events.length - 1) default).timestamp -
        (pi.events.getD 0 default).timestamp
      (idxFrom 0 (pi.events.length - 1)).filterMap fun i =>
        let stage := (pi.events.getD (i + 1) default).timestamp -
          (pi.events.getD i default).timestamp
        let percentage := stage / total * 100
        if 0 < total ∧ 80 < percentage then
          some ("Manual/Unlogged Stage", ⟨pi.id, round1 percentage, 0, ""⟩)
        else none

/-- The full activity path of one instance.  The Go code concatenates
`desc + "→"` and strips the trailing 3 bytes (the UTF-8 length of "→"),
which equals this intercalation. -/
def pathString (evs : List MEvent) : String :=
  String.intercalate "→" (evs.map (·.description))

/-- Analyzer.collectComplexityMetrics — unique-path ratio over all instances;
`List.dedup` models the cardinality of the Go `uniquePaths` set. -/
def collectComplexityMetrics (instances : List ProcessInstance) :
    List (String × MetricOccurrence) :=
  if instances.length = 0 then []
  else
    let uniqueCount := ((instances.map fun pi => pathString pi.events).dedup).length
    let variability := (uniqueCount : ℚ) / (instances.length : ℚ) * 100
    if 80 < variability then
      [("High Process Variability", ⟨"ALL", round1 variability, 0, ""⟩)]
    else []

/-- An instance counts as completed: ≥ 2 events, first description contains
"начало" and last contains "конец" (lowercased; Go lowercases full Unicode,
the model's `String.toLower` lowercases ASCII — no claim exercises the
difference). -/
def completedInstance (pi : ProcessInstance) : Bool :=
  decide (2 ≤ pi.events.length) &&
    containsSub "начало" (pi.events.getD 0 default).description.toLower &&
    containsSub "конец" (pi.events.getD (pi.events.length - 1) default).description.toLower

/-- Analyzer.collectCompletionMetrics — completion rate below 100% over all
instances. -/
def collectCompletionMetrics (instances : List ProcessInstance) :
    List (String × MetricOccurrence) :=
  if instances.length = 0 then []
  else
    let completed := (instances.filter completedInstance).length
    let rate := (completed : ℚ) / (instances.length : ℚ) * 100
    if rate < 100 then
      [("Low Process Completion Rate", ⟨"ALL", round1 rate, 0, ""⟩)]
    else []

/-- A session "has error": some event's result equals the sentinel "error". -/
def hasError (pi : ProcessInstance) : Bool :=
  pi.events.any fun e => e.result = "error"

/-- Analyzer.collectErrorMetrics — one "ALL" occurrence, value the number of
error instances, iff error instances outnumber success instances. -/
def collectErrorMetrics (instances : List ProcessInstance) :
    List (String × MetricOccurrence) :=
  let errorInstances := (instances.filter hasError).length
  let successInstances := (instances.filter fun pi => !hasError pi).length
  if successInstances < errorInstances then
    [("High Error Rate", ⟨"ALL", (errorInstances : ℚ), 0, ""⟩)]
  else []

/-- IEEE-style addition on possibly non-finite values (`none` = NaN/±Inf). -/
def oadd : Option ℚ → Option ℚ → Option ℚ
  | some a, some b => some (a + b)
  | _, _ => none

/-- IEEE-style subtraction on possibly non-finite values. -/
def osub : Option ℚ → Option ℚ → Option ℚ
  | some a, some b => some (a - b)
  | _, _ => none

/-- IEEE-style multiplication on possibly non-finite values (NaN absorbs). -/
def omul : Option ℚ → Option ℚ → Option ℚ
  | some a, some b => some (a * b)
  | _, _ => none

/-- IEEE-style division: a division by zero yields a non-finite float
(NaN or ±Inf), modelled as `none`. -/
def odiv : Option ℚ → Option ℚ → Option ℚ
  | some a, some b => if b = 0 then none else some (a / b)
  | _, _ => none

/-- The summation loop of calculateLinearRegression:
`(sumX, sumY, sumXY, sumX2)` accumulated over the data with index `i`. -/
def regSums : List ℚ → ℕ → ℚ × ℚ × ℚ × ℚ → ℚ × ℚ × ℚ × ℚ
  | [], _, acc => acc
  | y :: ys, i, (sx, sy, sxy, sx2) =>
      regSums ys (i + 1) (sx + i, sy + y, sxy + i * y, sx2 + i * i)

/-- calculateLinearRegression — closed-form OLS slope/intercept; only `n == 0`
is guarded; a zero denominator (a single data point) yields a non-finite
result, modelled as `none`. -/
def calculateLinearRegression (data : List ℚ) : Option ℚ × Option ℚ :=
  let s := regSums data 0 (0, 0, 0, 0)
  let n : ℚ := data.length
  if data.length = 0 then (some 0, some 0)
  else
    let slope := odiv (some (n * s.2.2.1 - s.1 * s.2.1)) (some (n * s.2.2.2 - s.1 * s.1))
    let intercept := odiv (osub (some s.2.1) (omul slope (some s.1))) (some n)
    (slope, intercept)

/-- The duration-collection loop of collectDurationMetrics: consecutive-pair
durations over all instances, skipping instances with < 2 events, pairs with a
zero timestamp on either side and pairs with out-of-order timestamps. -/
def collectDurations (instances : List ProcessInstance) : List ℚ :=
  instances.flatMap fun pi =>
    if pi.events.length < 2 then []
    else
      (idxFrom 0 (pi.events.length - 1)).filterMap fun i =>
        let e1 := pi.events.getD i default
        let e2 := pi.events.getD (i + 1) default
        if e1.timestamp = 0 ∨ e2.timestamp = 0 then none
        else if e2.timestamp < e1.timestamp then none
        else some (e2.timestamp - e1.timestamp)

/-- The anomaly re-scan of collectDurationMetrics: every consecutive pair in
every instance (no zero/ordering skips here), one occurrence per duration
strictly above the threshold, value = the duration in seconds. -/
def rescanOccs (instances : List ProcessInstance) (threshold : ℚ) :
    List (String × MetricOccurrence) :=
  instances.flatMap fun pi =>
    (idxFrom 0 (pi.events.length - 1)).filterMap fun i =>
      let d := (pi.events.getD (i + 1) default).timestamp -
        (pi.events.getD i default).timestamp
      if threshold < d then
        some ("Anomalously Long Stage", ⟨pi.id, d, 0, ""⟩)
      else none

/-- The stage-trend emission condition: `atan(slope)` converted to degrees
strictly exceeds 5.0. -/
def trendAngleExceeded (s : ℚ) : Prop :=
  Real.arctan (s : ℝ) * 180 / Real.pi > 5

/-- The per-instance whole durations feeding the instance trend (instances
with ≥ 2 events; no zero/ordering skips). -/
def instanceDurationsOf (instances : List ProcessInstance) : List ℚ :=
  instances.filterMap fun pi =>
    if 1 < pi.events.length then
      some ((pi.events.getD (pi.events.length - 1) default).timestamp -
        (pi.events.getD 0 default).timestamp)
    else none

section DurationMetrics

attribute [local instance] Classical.propDecidable

/-- Analyzer.collectDurationMetrics.  Note the in-place `sort.Float64s` inside
the `len >= 4` branch: the quartiles AND the subsequent stage-trend regression
both see the sorted list when at least 4 durations were collected, and the
unsorted collection-order list otherwise. -/
noncomputable def collectDurationMetrics (instances : List ProcessInstance) :
    List (String × MetricOccurrence) :=
  let durations := collectDurations instances
  if durations.length = 0 then []
  else
    let durations2 := if 4 ≤ durations.length then sortQ durations else durations
    let anomalies :=
      if 4 ≤ durations.length then
        let q1 := durations2.getD (goRoundNat (((durations.length - 1 : ℕ) : ℚ) * (1/4))) 0
        let q3 := durations2.getD (goRoundNat (((durations.length - 1 : ℕ) : ℚ) * (3/4))) 0
        let iqr := q3 - q1
        rescanOccs instances (q3 + 1.5 * iqr)
      else []
    let stageTrend :=
      match (calculateLinearRegression durations2).1 with
      | some s =>
          if trendAngleExceeded s then
            [("Increasing Stage Duration Trend", (⟨"ALL", s, 0, ""⟩ : MetricOccurrence))]
          else []
      | none => []
    let instanceDurations := instanceDurationsOf instances
    let instTrend :=
      if 1 < instanceDurations.length then
        match (calculateLinearRegression instanceDurations).1 with
        | some s =>
            if 0 < s then
              [("Increasing Process Instance Duration Trend",
                (⟨"ALL", s, 0, ""⟩ : MetricOccurrence))]
            else []
        | none => []
      else []
    anomalies ++ stageTrend ++ instTrend

end DurationMetrics

/-- All detector results appended in the order Analyze calls the collectors. -/
noncomputable def rawMetricsOf (instances : List ProcessInstance) :
    List (String × MetricOccurrence) :=
  collectLoopingMetrics instances ++ collectDurationMetrics instances ++
    collectManualStageMetrics instances ++ collectComplexityMetrics instances ++
    collectCompletionMetrics instances ++ collectErrorMetrics instances

/-- A fresh per-key aggregate (the zero-initialised InefficiencyMetric). -/
def initMetric (d : MetricDefinition) : InefficiencyMetric :=
  ⟨d, [], 0, 0, 0, false⟩

/-- One step of the Analyze merge loop, for the aggregate of a fixed key. -/
def aggStep (key : String) (m : InefficiencyMetric)
    (ko : String × MetricOccurrence) : InefficiencyMetric :=
  if ko.1 = key then
    { m with
      occurrences := m.occurrences ++ [ko.2],
      totalValue := m.totalValue + ko.2.value,
      totalWastedDuration := m.totalWastedDuration + ko.2.wastedDurationSeconds,
      count := m.count + 1,
      exceeded := m.exceeded || decide (m.definition.threshold < ko.2.value) }
  else m

/-- The aggregate a fixed catalog key accumulates over the raw results
(Go merges all keys in one pass over a map; per key the effect is this fold). -/
def aggregateKey (key : String) (d : MetricDefinition)
    (raw : List (String × MetricOccurrence)) : InefficiencyMetric :=
  raw.foldl (aggStep key) (initMetric d)

/-- Final rounding of the aggregate value to one decimal place. -/
def finalizeMetric (m : InefficiencyMetric) : InefficiencyMetric :=
  { m with totalValue := round1 m.totalValue }

/-- Analyzer.Analyze.  The Go function receives the instances as a map and
iterates its values; the model receives the value list.  The returned metrics
list is in catalog order (Go's order is the map iteration order). -/
noncomputable def analyze (instances : List ProcessInstance) : MetricsReport :=
  let processDurations := sortQ (instances.filterMap fun pi =>
    if 1 < pi.events.length then
      some ((pi.events.getD (pi.events.length - 1) default).timestamp -
        (pi.events.getD 0 default).timestamp)
    else none)
  let avg := if processDurations.length = 0 then 0
    else processDurations.sum / (processDurations.length : ℚ)
  let median :=
    if processDurations.length = 0 then 0
    else if processDurations.length % 2 = 0 then
      (processDurations.getD (processDurations.length / 2 - 1) 0 +
        processDurations.getD (processDurations.length / 2) 0) / 2
    else processDurations.getD (processDurations.length / 2) 0
  { totalProcessInstances := instances.length
    totalEvents := (instances.map fun pi => pi.events.length).sum
    averageProcessDuration := avg
    medianProcessDuration := median
    metrics := metricCatalog.map fun kd =>
      finalizeMetric (aggregateKey kd.1 kd.2 (rawMetricsOf instances)) }

/-- domain.Event — the builder's event record (it has no outcome field). -/
structure DEvent where
  id : String
  sessionID : String
  timestamp : ℚ
  desc : String
deriving DecidableEq

instance : Inhabited DEvent := ⟨⟨"", "", 0, ""⟩⟩

/-- domain.Node. -/
structure Node where
  id : String
  label : String
  count : ℕ
  total : ℕ
  color : String
deriving DecidableEq

/-- domain.Edge.  `from` and `to` are Lean keywords, hence the underscores. -/
structure Edge where
  from_ : String
  to_ : String
  count : ℕ
  avgDuration : ℚ
  label : String
  style : String
deriving DecidableEq

/-- domain.GraphBuilder state.  Go's `graph.Nodes`/`graph.Edges` hold pointers
into `nodeMap`/`edgeMap` (so later map updates show through); the model keeps
the maps as the store and records the appended pointers as key references.
The synthetic "start"/"end" nodes are fresh values appended once per finalize;
they are recorded as the references "start"/"end" (their counts, equal to the
session count at finalize time, are display data no claim reads). -/
structure BuilderState where
  sessionMap : List (String × List DEvent)
  nodeMap : List (String × Node)
  edgeMap : List (String × Edge)
  graphNodeRefs : List String
  graphEdgeRefs : List String
deriving DecidableEq

/-- NewGraphBuilder — empty maps, empty graph. -/
def initialBuilder : BuilderState :=
  ⟨[], [], [], [], []⟩

/-- GraphBuilder.processEvent — append the event to its session, creating the
session on first sight. -/
def processEvent (e : DEvent) (st : BuilderState) : BuilderState :=
  { st with
    sessionMap :=
      upsertA e.sessionID ((lookupA e.sessionID st.sessionMap).getD [] ++ [e])
        st.sessionMap }

/-- GraphBuilder.getNode + the two count increments of processSession. -/
def nodeStep (desc : String) (m : List (String × Node)) : List (String × Node) :=
  let n := (lookupA desc m).getD ⟨desc, desc, 0, 0, "blue"⟩
  upsertA desc { n with count := n.count + 1, total := n.total + 1 } m

/-- Edge identity: the Go map key `from + "_" + to`. -/
def edgeKey (a b : String) : String :=
  a ++ "_" ++ b

/-- GraphBuilder.getEdge + count increment + running-average update of
processSession.  With old count c, Go computes `(avg*float64(c) + d)/float64(c+1)`
(it reads Count after the increment, so `Count-1 = c`). -/
def edgeStep (key f t : String) (dur : ℚ) (m : List (String × Edge)) :
    List (String × Edge) :=
  let e := (lookupA key m).getD ⟨f, t, 0, 0, "", ""⟩
  upsertA key
    { e with
      count := e.count + 1,
      avgDuration := (e.avgDuration * (e.count : ℚ) + dur) / ((e.count : ℚ) + 1) } m

/-- Consecutive event pairs of a session, in order. -/
def consecutivePairs : List DEvent → List (DEvent × DEvent)
  | [] => []
  | [_] => []
  | a :: b :: rest => (a, b) :: consecutivePairs (b :: rest)

/-- GraphBuilder.processSession — node counts for every event, then the edge
chain over consecutive pairs (only when the session has ≥ 2 events). -/
def processSession (evs : List DEvent) (st : BuilderState) : BuilderState :=
  let st1 := { st with nodeMap := evs.foldl (fun m e => nodeStep e.desc m) st.nodeMap }
  if 1 < evs.length then
    { st1 with
      edgeMap :=
        (consecutivePairs evs).foldl
          (fun m pc =>
            edgeStep (edgeKey pc.1.desc pc.2.desc) pc.1.desc pc.2.desc
              (pc.2.timestamp - pc.1.timestamp) m)
          st1.edgeMap }
  else st1

/-- One boundary-edge update of finalizeGraph (start→first or last→end):
create/look up the edge, increment its count, set the dashed style, and append
its reference to the graph exactly when the count just became 1. -/
def boundaryEdgeStep (key f t : String) (st : BuilderState) : BuilderState :=
  let e := (lookupA key st.edgeMap).getD ⟨f, t, 0, 0, "", ""⟩
  let e' := { e with count := e.count + 1, style := "dashed" }
  { st with
    edgeMap := upsertA key e' st.edgeMap,
    graphEdgeRefs := st.graphEdgeRefs ++ if e'.count = 1 then [key] else [] }

/-- The boundary loop body of finalizeGraph for one session. -/
def boundarySessionStep (st : BuilderState) (evs : List DEvent) : BuilderState :=
  match evs with
  | [] => st
  | e0 :: _ =>
      let lastDesc := (evs.getD (evs.length - 1) default).desc
      let st1 := boundaryEdgeStep ("start_" ++ e0.desc) "start" e0.desc st
      boundaryEdgeStep (lastDesc ++ "_end") lastDesc "end" st1

/-- GraphBuilder.finalizeGraph — process every session, append every node and
edge reference to the graph (setting display labels, abstracted as ""), append
the synthetic "start"/"end" nodes, then create/increment the dashed boundary
edges per session. -/
def finalizeGraph (st : BuilderState) : BuilderState :=
  let st1 := st.sessionMap.foldl (fun s kv => processSession kv.2 s) st
  let st2 :=
    { st1 with
      graphNodeRefs := st1.graphNodeRefs ++ st1.nodeMap.map Prod.fst ++ ["start", "end"],
      edgeMap := st1.edgeMap.map fun (ke : String × Edge) => (ke.1, { ke.2 with label := "" }),
      graphEdgeRefs := st1.graphEdgeRefs ++ st1.edgeMap.map Prod.fst }
  st2.sessionMap.foldl (fun s (kv : String × List DEvent) => boundarySessionStep s kv.2) st2

/-- Modelled from the spec: Go's `time.Parse` (standard library, not part of
this repository) is abstracted as a per-format oracle — `tryFormat i s` is the
result of parsing `s` with the i-th entry of the fixed format list of
`parseTime` (RFC3339, "2006-01-02 15:04:05", "02.01.2006 15:04:05",
"02.01.2006 15:04", "2006-01-02T15:04:05Z07:00"). -/
structure TimeParser where
  tryFormat : ℕ → String → Option ℚ

/-- The format-trial loop of parseTime over the remaining format indices. -/
def tryFormatList (tp : TimeParser) (s : String) : List ℕ → Option ℚ
  | [] => none
  | i :: rest =>
      match tp.tryFormat i s with
      | some t => some t
      | none => tryFormatList tp s rest

/-- parseTime — try the five formats in fixed priority order, first match wins;
all formats failing is a parse error. -/
def parseTime (tp : TimeParser) (s : String) : Except String ℚ :=
  match tryFormatList tp s (List.range 5) with
  | some t => Except.ok t
  | none => Except.error ("не удалось распознать формат времени: " ++ s)

/-- The error text for a record with fewer than 3 columns (Go formats the
record with %v, i.e. space-separated in brackets). -/
def tooFewColumnsErr (r : List String) : String :=
  "ошибка: запись содержит меньше 3 столбцов: [" ++ String.intercalate " " r ++ "]"

/-- The per-record callback result of BuildGraph: `none` when the record is
accepted (yielding an event), or the error it raises. -/
def recordCheck (tp : TimeParser) (r : List String) : Except String DEvent :=
  if r.length < 3 then Except.error (tooFewColumnsErr r)
  else
    match parseTime tp (r.getD 1 "") with
    | Except.error e => Except.error e
    | Except.ok t =>
        Except.ok ⟨r.getD 0 "", r.getD 0 "", t, r.getD 2 ""⟩

/-- Modelled from the spec: `infrastructure.CSVReader.ReadAndProcess` is not
part of the sources; per the spec it streams the raw records to the callback
in order and surfaces the first callback error, aborting the ingest.  (On
failure Go retains the sessions accumulated so far — the spec calls that state
undefined; the model returns only the error.) -/
def buildEvents (tp : TimeParser) : List (List String) → BuilderState →
    Except String BuilderState
  | [], st => Except.ok st
  | r :: rs, st =>
      match recordCheck tp r with
      | Except.error e => Except.error e
      | Except.ok ev => buildEvents tp rs (processEvent ev st)

/-- GraphBuilder.BuildGraph — stream all records into the session state, then
finalize the graph; the first record error aborts the whole build. -/
def buildGraph (tp : TimeParser) (records : List (List String))
    (st : BuilderState) : Except String BuilderState :=
  match buildEvents tp records st with
  | Except.error e => Except.error e
  | Except.ok st' => Except.ok (finalizeGraph st')

/-- GraphBuilder.ClearGraph — discard and reallocate all container state. -/
def clearGraph (_ : BuilderState) : BuilderState :=
  initialBuilder

/-- GraphBuilder.GetProcessInstances — one ProcessInstance per session.  The
struct literal sets only `Events`, so every returned instance has the
zero-value ID "" ; the converted events set SessionID, Timestamp and
Description but not Result, so every result is "". -/
def getProcessInstances (st : BuilderState) : List ProcessInstance :=
  st.sessionMap.map fun kv =>
    { id := "",
      events := kv.2.map fun e =>
        { sessionID := e.sessionID, timestamp := e.timestamp,
          description := e.desc, result := "" } }

/-- The per-instance conversion inside GraphService.GetMetricsReport (a
field-by-field copy of the instance and its events). -/
def convertInstance (pi : ProcessInstance) : ProcessInstance :=
  { id := pi.id,
    events := pi.events.map fun e =>
      { sessionID := e.sessionID, timestamp := e.timestamp,
        description := e.description, result := e.result } }

/-- The instance-map construction of GraphService.GetMetricsReport: each
instance from the slice is (re-)inserted under its ID, later entries
overwriting earlier ones with the same ID. -/
def instancesMapOf (pis : List ProcessInstance) : List (String × ProcessInstance) :=
  pis.foldl (fun m pi => upsertA pi.id (convertInstance pi) m) []

/-- GraphService.GetMetricsReport — convert the instance slice into a map
keyed by instance ID and run the Analyzer over the map's values. -/
noncomputable def getMetricsReport (st : BuilderState) : MetricsReport :=
  analyze (valuesA (instancesMapOf (getProcessInstances st)))

deriving instance DecidableEq for Except

instance : Inhabited MetricDefinition := ⟨⟨"", "", "", "", 0⟩⟩

instance : Inhabited InefficiencyMetric := ⟨initMetric default⟩

/-! ### Named pieces of collectDurationMetrics (used to dissect it) -/

/-- The duration list the quartiles and the stage-trend regression actually
see: sorted in place by the IQR step when it has ≥ 4 entries. -/
def durations2Of (instances : List ProcessInstance) : List ℚ :=
  if 4 ≤ (collectDurations instances).length then sortQ (collectDurations instances)
  else collectDurations instances

/-- The IQR outlier threshold Q3 + 1.5·(Q3−Q1) with Q1/Q3 read at the rounded
quartile indices of the sorted duration list. -/
def anomalyThresholdOf (instances : List ProcessInstance) : ℚ :=
  let ds := collectDurations instances
  let q1 := (durations2Of instances).getD (goRoundNat (((ds.length - 1 : ℕ) : ℚ) * (1/4))) 0
  let q3 := (durations2Of instances).getD (goRoundNat (((ds.length - 1 : ℕ) : ℚ) * (3/4))) 0
  q3 + 1.5 * (q3 - q1)

/-- The Anomalously Long Stage block of collectDurationMetrics. -/
def anomalyOccsOf (instances : List ProcessInstance) : List (String × MetricOccurrence) :=
  if 4 ≤ (collectDurations instances).length then
    rescanOccs instances (anomalyThresholdOf instances)
  else []

section DurationPieces

attribute [local instance] Classical.propDecidable

/-- The Increasing Stage Duration Trend block of collectDurationMetrics. -/
noncomputable def stageTrendOccsOf (instances : List ProcessInstance) :
    List (String × MetricOccurrence) :=
  match (calculateLinearRegression (durations2Of instances)).1 with
  | some s =>
      if trendAngleExceeded s then
        [("Increasing Stage Duration Trend", (⟨"ALL", s, 0, ""⟩ : MetricOccurrence))]
      else []
  | none => []

/-- The Increasing Process Instance Duration Trend block of
collectDurationMetrics. -/
noncomputable def instTrendOccsOf (instances : List ProcessInstance) :
    List (String × MetricOccurrence) :=
  if 1 < (instanceDurationsOf instances).length then
    match (calculateLinearRegression (instanceDurationsOf instances)).1 with
    | some s =>
        if 0 < s then
          [("Increasing Process Instance Duration Trend",
            (⟨"ALL", s, 0, ""⟩ : MetricOccurrence))]
        else []
    | none => []
  else []

/-- The stage-trend occurrences as the amended claim C5 describes them: an OLS
fit over the duration list as it stands after the IQR step — sorted ascending
when at least 4 durations were collected, collection order otherwise — with
one "ALL" occurrence carrying the raw slope iff atan(slope) exceeds 5°. -/
noncomputable def stageTrendSpecSorted (instances : List ProcessInstance) :
    List MetricOccurrence :=
  let ds := collectDurations instances
  if ds = [] then []
  else
    let fitted := if 4 ≤ ds.length then sortQ ds else ds
    match (calculateLinearRegression fitted).1 with
    | some s => if trendAngleExceeded s then [⟨"ALL", s, 0, ""⟩] else []
    | none => []

/-- The stage-trend occurrences as claim C5 literally states them: an OLS fit
over the full ordered duration list in flattened collection order, one "ALL"
occurrence carrying the raw slope iff atan(slope) exceeds 5°. -/
noncomputable def stageTrendSpecClaim (instances : List ProcessInstance) :
    List MetricOccurrence :=
  let ds := collectDurations instances
  if ds = [] then []
  else
    match (calculateLinearRegression ds).1 with
    | some s => if trendAngleExceeded s then [⟨"ALL", s, 0, ""⟩] else []
    | none => []

end DurationPieces

/-- Consecutive pairs of analyzer events, in order. -/
def consecutivePairsM : List MEvent → List (MEvent × MEvent)
  | [] => []
  | [_] => []
  | a :: b :: rest => (a, b) :: consecutivePairsM (b :: rest)

/-- The Anomalously Long Stage occurrences as claim C7 describes them: nothing
with fewer than 4 collected durations; otherwise Q1/Q3 at the rounded quartile
indices of the sorted duration list, threshold Q3 + 1.5·(Q3−Q1), and one
occurrence (value = duration in seconds) per consecutive pair in any session
whose duration exceeds the threshold. -/
def anomalySpecOccs (instances : List ProcessInstance) : List MetricOccurrence :=
  let ds := collectDurations instances
  if ds.length < 4 then []
  else
    let sorted := sortQ ds
    let q1 := sorted.getD (goRoundNat (((ds.length - 1 : ℕ) : ℚ) * (1/4))) 0
    let q3 := sorted.getD (goRoundNat (((ds.length - 1 : ℕ) : ℚ) * (3/4))) 0
    let threshold := q3 + 1.5 * (q3 - q1)
    instances.flatMap fun pi =>
      (consecutivePairsM pi.events).filterMap fun pq =>
        if threshold < pq.2.timestamp - pq.1.timestamp then
          some ⟨pi.id, pq.2.timestamp - pq.1.timestamp, 0, ""⟩
        else none

/-! ### Definitions for the edge running-average claim C8 -/

/-- The transition durations a given edge-map key receives, in processing
order (the key of a consecutive pair is `from + "_" + to`). -/
def keyDurations (k : String) (sessions : List (String × List DEvent)) : List ℚ :=
  sessions.flatMap fun kv =>
    (consecutivePairs kv.2).filterMap fun pc =>
      if edgeKey pc.1.desc pc.2.desc = k then some (pc.2.timestamp - pc.1.timestamp)
      else none

/-- The durations observed for one exact (from, to) activity pair, as claim C8
speaks of them. -/
def pairDurations (f t : String) (sessions : List (String × List DEvent)) : List ℚ :=
  sessions.flatMap fun kv =>
    (consecutivePairs kv.2).filterMap fun pc =>
      if pc.1.desc = f ∧ pc.2.desc = t then some (pc.2.timestamp - pc.1.timestamp)
      else none

/-- The builder state after processing all sessions (the processSession fold of
finalizeGraph) from a fresh builder whose session map holds the given sessions. -/
def processAllSessions (sessions : List (String × List DEvent)) : BuilderState :=
  sessions.foldl (fun s kv => processSession kv.2 s)
    { initialBuilder with sessionMap := sessions }

/-- The (count, avg_duration) state of an edge-map entry; an absent edge reads
as (0, 0), matching getEdge's freshly created edge before its first update. -/
def ecaOf (k : String) (m : List (String × Edge)) : ℕ × ℚ :=
  match lookupA k m with
  | some e => (e.count, e.avgDuration)
  | none => (0, 0)

/-- One running-average update in (count, avg) form: count' = count + 1,
avg' = (avg·count + d)/count'. -/
def runningMeanStep (ca : ℕ × ℚ) (d : ℚ) : ℕ × ℚ :=
  (ca.1 + 1, (ca.2 * (ca.1 : ℚ) + d) / ((ca.1 : ℚ) + 1))

/-! ### Predicates for the ingest claim C9 -/

/-- Whether a raw record passes BuildGraph's per-record checks (≥ 3 fields and
a parsable timestamp). -/
def recordOk (tp : TimeParser) (r : List String) : Bool :=
  match recordCheck tp r with
  | Except.ok _ => true
  | Except.error _ => false

/-- The error a failing record raises ("" for an accepted record). -/
def recordErrMsg (tp : TimeParser) (r : List String) : String :=
  match recordCheck tp r with
  | Except.ok _ => ""
  | Except.error e => e

/-! ### Concrete inputs used by counterexamples and witnesses -/

/-- A time-parse oracle: format 1 ("2006-01-02 15:04:05") recognises two
sample timestamps; everything else fails every format. -/
def tpSample : TimeParser :=
  ⟨fun i s =>
    if i = 1 ∧ s = "2024-01-01 10:00:00" then some 100
    else if i = 1 ∧ s = "2024-01-01 10:00:10" then some 110
    else none⟩

/-- The successful result of a build, for writing concrete states (falls back
to the fresh builder on error; used only where the build is proven to
succeed). -/
def extractOk (e : Except String BuilderState) : BuilderState :=
  match e with
  | Except.ok st => st
  | Except.error _ => initialBuilder

/-- Claim C4's first build: one record, session "a", activity "A". -/
def c4Rec1 : List (List String) :=
  [["a", "2024-01-01 10:00:00", "A"]]

/-- Claim C4's second build: one record, session "b", activity "B". -/
def c4Rec2 : List (List String) :=
  [["b", "2024-01-01 10:00:10", "B"]]

/-- The state after the first build. -/
def c4St1 : BuilderState := extractOk (buildGraph tpSample c4Rec1 initialBuilder)

/-- The state after the second build on top of the first. -/
def c4St2 : BuilderState := extractOk (buildGraph tpSample c4Rec2 c4St1)

/-- The state after the second build alone on a fresh builder. -/
def c4StFresh : BuilderState := extractOk (buildGraph tpSample c4Rec2 initialBuilder)

/-- Claim C3's log: four sessions with the path Start→X→End and one with the
unique path Start→Y→Z→End (10-second gaps throughout). -/
def c3Sessions : List (String × List DEvent) :=
  [ ("c1", [⟨"c1", "c1", 10, "Start"⟩, ⟨"c1", "c1", 20, "X"⟩, ⟨"c1", "c1", 30, "End"⟩]),
    ("c2", [⟨"c2", "c2", 10, "Start"⟩, ⟨"c2", "c2", 20, "X"⟩, ⟨"c2", "c2", 30, "End"⟩]),
    ("c3", [⟨"c3", "c3", 10, "Start"⟩, ⟨"c3", "c3", 20, "X"⟩, ⟨"c3", "c3", 30, "End"⟩]),
    ("c4", [⟨"c4", "c4", 10, "Start"⟩, ⟨"c4", "c4", 20, "X"⟩, ⟨"c4", "c4", 30, "End"⟩]),
    ("c5", [⟨"c5", "c5", 10, "Start"⟩, ⟨"c5", "c5", 20, "Y"⟩, ⟨"c5", "c5", 30, "Z"⟩,
      ⟨"c5", "c5", 40, "End"⟩]) ]

/-- The same five sessions as intact ProcessInstances keyed by their case IDs
(what the Analyzer would see if GetProcessInstances preserved the IDs). -/
def c3FiveInstances : List ProcessInstance :=
  [ ⟨"c1", [⟨"c1", 10, "Start", ""⟩, ⟨"c1", 20, "X", ""⟩, ⟨"c1", 30, "End", ""⟩]⟩,
    ⟨"c2", [⟨"c2", 10, "Start", ""⟩, ⟨"c2", 20, "X", ""⟩, ⟨"c2", 30, "End", ""⟩]⟩,
    ⟨"c3", [⟨"c3", 10, "Start", ""⟩, ⟨"c3", 20, "X", ""⟩, ⟨"c3", 30, "End", ""⟩]⟩,
    ⟨"c4", [⟨"c4", 10, "Start", ""⟩, ⟨"c4", 20, "X", ""⟩, ⟨"c4", 30, "End", ""⟩]⟩,
    ⟨"c5", [⟨"c5", 10, "Start", ""⟩, ⟨"c5", 20, "Y", ""⟩, ⟨"c5", 30, "Z", ""⟩,
      ⟨"c5", 40, "End", ""⟩]⟩ ]

/-- Claim C5's counterexample instance: five events whose consecutive-pair
durations are 100, 60, 30, 0 in collection order (decreasing, so the raw-order
OLS slope is negative while the sorted-order slope is +33). -/
def c5Instance : ProcessInstance :=
  ⟨"s", [⟨"s", 1, "A", ""⟩, ⟨"s", 101, "B", ""⟩, ⟨"s", 161, "C", ""⟩,
    ⟨"s", 191, "D", ""⟩, ⟨"s", 191, "E", ""⟩]⟩

/-- Claim C8's counterexample sessions: the pairs ("a_b","c") and ("a","b_c")
share the edge-map key "a_b_c". -/
def c8Sessions : List (String × List DEvent) :=
  [ ("s1", [⟨"s1", "s1", 1, "a_b"⟩, ⟨"s1", "s1", 11, "c"⟩]),
    ("s2", [⟨"s2", "s2", 1, "a"⟩, ⟨"s2", "s2", 21, "b_c"⟩]) ]

/-! ### Aggregation lemmas -/

/-- The occurrences a given key receives from the raw detector results. -/
def occurrencesOfKey (key : String) (raw : List (String × MetricOccurrence)) :
    List MetricOccurrence :=
  raw.filterMap fun ko => if ko.1 = key then some ko.2 else none

lemma foldl_aggStep (key : String) :
    ∀ (raw : List (String × MetricOccurrence)) (m : InefficiencyMetric),
      raw.foldl (aggStep key) m =
        { definition := m.definition,
          occurrences := m.occurrences ++ occurrencesOfKey key raw,
          totalValue := m.totalValue + ((occurrencesOfKey key raw).map fun o => o.value).sum,
          totalWastedDuration := m.totalWastedDuration +
            ((occurrencesOfKey key raw).map fun o => o.wastedDurationSeconds).sum,
          count := m.count + (occurrencesOfKey key raw).length,
          exceeded := m.exceeded ||
            (occurrencesOfKey key raw).any fun o => decide (m.definition.threshold < o.value) }
  | [], m => by simp [occurrencesOfKey]
  | (k, o) :: rest, m => by
      rw [List.foldl_cons, foldl_aggStep key rest]
      by_cases hk : k = key
      · simp only [aggStep, occurrencesOfKey, List.filterMap_cons, hk, if_true, ite_true,
          InefficiencyMetric.mk.injEq, List.map_cons, List.sum_cons, List.length_cons]
        exact ⟨trivial, by simp, by ring, by ring, by omega, by simp [Bool.or_assoc]⟩
      · simp only [aggStep, occurrencesOfKey, List.filterMap_cons, hk]
        simp [hk]

lemma aggregateKey_eq (key : String) (d : MetricDefinition)
    (raw : List (String × MetricOccurrence)) :
    aggregateKey key d raw =
      { definition := d,
        occurrences := occurrencesOfKey key raw,
        totalValue := ((occurrencesOfKey key raw).map fun o => o.value).sum,
        totalWastedDuration :=
          ((occurrencesOfKey key raw).map fun o => o.wastedDurationSeconds).sum,
        count := (occurrencesOfKey key raw).length,
        exceeded := (occurrencesOfKey key raw).any fun o => decide (d.threshold < o.value) } := by
  rw [aggregateKey, foldl_aggStep]
  simp [initMetric]

lemma analyze_metrics (instances : List ProcessInstance) :
    (analyze instances).metrics =
      metricCatalog.map fun kd =>
        finalizeMetric (aggregateKey kd.1 kd.2 (rawMetricsOf instances)) := rfl

/-- C2: for every input, every InefficiencyMetric in the report has Count equal
to the length of its occurrence list, TotalValue equal to the sum of occurrence
values rounded to one decimal, TotalWastedDuration equal to the sum of wasted
seconds, Exceeded true iff some occurrence strictly exceeds the definition's
threshold; and every catalog entry is represented by a metric in the report
(even with zero occurrences). -/
theorem c2_metric_aggregate_invariants (instances : List ProcessInstance)
    (m : InefficiencyMetric) (hm : m ∈ (analyze instances).metrics) :
    (m.count = m.occurrences.length ∧
     m.totalValue = round1 ((m.occurrences.map fun o => o.value).sum) ∧
     m.totalWastedDuration = (m.occurrences.map fun o => o.wastedDurationSeconds).sum ∧
     (m.exceeded = true ↔ ∃ o ∈ m.occurrences, m.definition.threshold < o.value)) ∧
    ∀ kd ∈ metricCatalog, ∃ m' ∈ (analyze instances).metrics, m'.definition = kd.2 := by
  constructor
  · rw [analyze_metrics] at hm
    rcases List.mem_map.mp hm with ⟨kd, _, rfl⟩
    rw [aggregateKey_eq]
    refine ⟨rfl, rfl, rfl, ?_⟩
    simp [finalizeMetric, List.any_eq_true]
  · intro kd hkd
    refine ⟨finalizeMetric (aggregateKey kd.1 kd.2 (rawMetricsOf instances)), ?_, ?_⟩
    · rw [analyze_metrics]
      exact List.mem_map.mpr ⟨kd, hkd, rfl⟩
    · rw [aggregateKey_eq]
      rfl

/-- C2 witness: the invariants instantiated at the empty instance collection,
for the first metric of the report. -/
theorem c2_metric_aggregate_invariants_witness :
    ((analyze []).metrics.head! ∈ (analyze []).metrics) ∧
    ((analyze []).metrics.head!.count = (analyze []).metrics.head!.occurrences.length ∧
     (analyze []).metrics.head!.totalValue =
       round1 (((analyze []).metrics.head!.occurrences.map fun o => o.value).sum) ∧
     (analyze []).metrics.head!.totalWastedDuration =
       ((analyze []).metrics.head!.occurrences.map fun o => o.wastedDurationSeconds).sum ∧
     ((analyze []).metrics.head!.exceeded = true ↔
       ∃ o ∈ (analyze []).metrics.head!.occurrences,
         (analyze []).metrics.head!.definition.threshold < o.value)) := by
  have hne : (analyze []).metrics ≠ [] := by
    rw [analyze_metrics]
    simp [metricCatalog]
  have hmem := List.head!_mem_self hne
  exact ⟨hmem, (c2_metric_aggregate_invariants [] _ hmem).1⟩

/-! ### Provenance of detector occurrences: which keys each collector can emit,
and that every per-instance occurrence carries the ID of some input instance. -/

lemma selfLoopOccs_mem {pi : ProcessInstance} {k : String} {o : MetricOccurrence}
    (h : (k, o) ∈ selfLoopOccs pi) : k = "Self-Loop" ∧ o.instanceID = pi.id := by
  simp only [selfLoopOccs, List.mem_filterMap] at h
  rcases h with ⟨i, _, hsome⟩
  split at hsome
  · cases hsome; exact ⟨rfl, rfl⟩
  · cases hsome

lemma returnPrevOccs_mem {pi : ProcessInstance} {k : String} {o : MetricOccurrence}
    (h : (k, o) ∈ returnPrevOccs pi) :
    k = "Return to Previous Stage" ∧ o.instanceID = pi.id := by
  simp only [returnPrevOccs, List.mem_filterMap] at h
  rcases h with ⟨i, _, hsome⟩
  split at hsome
  · cases hsome; exact ⟨rfl, rfl⟩
  · cases hsome

lemma pingPongOccs_mem {pi : ProcessInstance} {k : String} {o : MetricOccurrence}
    (h : (k, o) ∈ pingPongOccs pi) : k = "Ping-Pong" ∧ o.instanceID = pi.id := by
  simp only [pingPongOccs, List.mem_filterMap] at h
  rcases h with ⟨i, _, hsome⟩
  split at hsome
  · cases hsome; exact ⟨rfl, rfl⟩
  · cases hsome

lemma returnStartOccs_mem {pi : ProcessInstance} {k : String} {o : MetricOccurrence}
    (h : (k, o) ∈ returnStartOccs pi) : k = "Return to Start" ∧ o.instanceID = pi.id := by
  rw [returnStartOccs] at h
  split at h
  · simp only [List.mem_filterMap] at h
    rcases h with ⟨i, _, hsome⟩
    split at hsome
    · cases hsome; exact ⟨rfl, rfl⟩
    · cases hsome
  · cases h

lemma reworkOccs_mem {pi : ProcessInstance} {k : String} {o : MetricOccurrence}
    (h : (k, o) ∈ reworkOccs pi) : k = "Rework" ∧ o.instanceID = pi.id := by
  simp only [reworkOccs, List.mem_filterMap] at h
  rcases h with ⟨di, _, hsome⟩
  split at hsome
  · cases hsome; exact ⟨rfl, rfl⟩
  · cases hsome

lemma collectLoopingMetrics_mem {instances : List ProcessInstance} {k : String}
    {o : MetricOccurrence} (h : (k, o) ∈ collectLoopingMetrics instances) :
    (k = "Self-Loop" ∨ k = "Return to Previous Stage" ∨ k = "Ping-Pong" ∨
      k = "Return to Start" ∨ k = "Rework") ∧
    ∃ pi ∈ instances, o.instanceID = pi.id := by
  simp only [collectLoopingMetrics, List.mem_flatMap] at h
  rcases h with ⟨pi, hpi, hmem⟩
  split at hmem
  · cases hmem
  · rcases List.mem_append.mp hmem with hm | hm
    rcases List.mem_append.mp hm with hm' | hm'
    rcases List.mem_append.mp hm' with hm'' | hm''
    rcases List.mem_append.mp hm'' with hm3 | hm3
    · exact ⟨Or.inl (selfLoopOccs_mem hm3).1, pi, hpi, (selfLoopOccs_mem hm3).2⟩
    · exact ⟨Or.inr (Or.inl (returnPrevOccs_mem hm3).1), pi, hpi, (returnPrevOccs_mem hm3).2⟩
    · exact ⟨Or.inr (Or.inr (Or.inl (pingPongOccs_mem hm'').1)), pi, hpi,
        (pingPongOccs_mem hm'').2⟩
    · exact ⟨Or.inr (Or.inr (Or.inr (Or.inl (returnStartOccs_mem hm').1))), pi, hpi,
        (returnStartOccs_mem hm').2⟩
    · exact ⟨Or.inr (Or.inr (Or.inr (Or.inr (reworkOccs_mem hm).1))), pi, hpi,
        (reworkOccs_mem hm).2⟩

lemma collectManualStageMetrics_mem {instances : List ProcessInstance} {k : String}
    {o : MetricOccurrence} (h : (k, o) ∈ collectManualStageMetrics instances) :
    k = "Manual/Unlogged Stage" ∧ ∃ pi ∈ instances, o.instanceID = pi.id := by
  simp only [collectManualStageMetrics, List.mem_flatMap] at h
  rcases h with ⟨pi, hpi, hmem⟩
  split at hmem
  · cases hmem
  · simp only [List.mem_filterMap] at hmem
    rcases hmem with ⟨i, _, hsome⟩
    split at hsome
    · cases hsome; exact ⟨rfl, pi, hpi, rfl⟩
    · cases hsome

lemma collectComplexityMetrics_mem {instances : List ProcessInstance} {k : String}
    {o : MetricOccurrence} (h : (k, o) ∈ collectComplexityMetrics instances) :
    k = "High Process Variability" ∧ o.instanceID = "ALL" := by
  rw [collectComplexityMetrics] at h
  split at h
  · cases h
  · dsimp only at h
    split at h
    · simp only [List.mem_singleton, Prod.mk.injEq] at h
      rcases h with ⟨rfl, rfl⟩
      exact ⟨rfl, rfl⟩
    · cases h

lemma collectCompletionMetrics_mem {instances : List ProcessInstance} {k : String}
    {o : MetricOccurrence} (h : (k, o) ∈ collectCompletionMetrics instances) :
    k = "Low Process Completion Rate" ∧ o.instanceID = "ALL" := by
  rw [collectCompletionMetrics] at h
  split at h
  · cases h
  · dsimp only at h
    split at h
    · simp only [List.mem_singleton, Prod.mk.injEq] at h
      rcases h with ⟨rfl, rfl⟩
      exact ⟨rfl, rfl⟩
    · cases h

lemma collectErrorMetrics_mem {instances : List ProcessInstance} {k : String}
    {o : MetricOccurrence} (h : (k, o) ∈ collectErrorMetrics instances) :
    k = "High Error Rate" ∧ o.instanceID = "ALL" := by
  rw [collectErrorMetrics] at h
  split at h
  · simp only [List.mem_singleton, Prod.mk.injEq] at h
    rcases h with ⟨rfl, rfl⟩
    exact ⟨rfl, rfl⟩
  · cases h

lemma rescanOccs_mem {instances : List ProcessInstance} {threshold : ℚ} {k : String}
    {o : MetricOccurrence} (h : (k, o) ∈ rescanOccs instances threshold) :
    k = "Anomalously Long Stage" ∧ ∃ pi ∈ instances, o.instanceID = pi.id := by
  simp only [rescanOccs, List.mem_flatMap] at h
  rcases h with ⟨pi, hpi, hmem⟩
  simp only [List.mem_filterMap] at hmem
  rcases hmem with ⟨i, _, hsome⟩
  split at hsome
  · cases hsome; exact ⟨rfl, pi, hpi, rfl⟩
  · cases hsome

lemma collectDurationMetrics_mem {instances : List ProcessInstance} {k : String}
    {o : MetricOccurrence} (h : (k, o) ∈ collectDurationMetrics instances) :
    (k = "Anomalously Long Stage" ∨ k = "Increasing Stage Duration Trend" ∨
      k = "Increasing Process Instance Duration Trend") ∧
    (o.instanceID = "ALL" ∨ ∃ pi ∈ instances, o.instanceID = pi.id) := by
  rw [collectDurationMetrics] at h
  split at h
  · cases h
  · rcases List.mem_append.mp h with hm | hm
    rcases List.mem_append.mp hm with hm' | hm'
    · -- anomalies
      split at hm'
      · rcases rescanOccs_mem hm' with ⟨rfl, hp⟩
        exact ⟨Or.inl rfl, Or.inr hp⟩
      · cases hm'
    · -- stage trend
      split at hm'
      · split at hm'
        · simp only [List.mem_singleton, Prod.mk.injEq] at hm'
          rcases hm' with ⟨rfl, rfl⟩
          exact ⟨Or.inr (Or.inl rfl), Or.inl rfl⟩
        · cases hm'
      · cases hm'
    · -- instance trend
      split at hm
      · split at hm
        · split at hm
          · simp only [List.mem_singleton, Prod.mk.injEq] at hm
            rcases hm with ⟨rfl, rfl⟩
            exact ⟨Or.inr (Or.inr rfl), Or.inl rfl⟩
          · cases hm
        · cases hm
      · cases hm

/-! ### Raw-result decomposition and the pipeline collapse (claim C1) -/

lemma mem_occurrencesOfKey {key : String} {raw : List (String × MetricOccurrence)}
    {o : MetricOccurrence} : o ∈ occurrencesOfKey key raw ↔ (key, o) ∈ raw := by
  simp only [occurrencesOfKey, List.mem_filterMap]
  constructor
  · rintro ⟨⟨k', o'⟩, hmem, hsome⟩
    by_cases hk : k' = key
    · rw [if_pos hk] at hsome
      cases hsome
      exact hk ▸ hmem
    · rw [if_neg hk] at hsome
      cases hsome
  · intro h
    exact ⟨(key, o), h, by simp⟩

lemma occurrencesOfKey_append (key : String) (a b : List (String × MetricOccurrence)) :
    occurrencesOfKey key (a ++ b) = occurrencesOfKey key a ++ occurrencesOfKey key b := by
  simp [occurrencesOfKey]

lemma occurrencesOfKey_eq_nil (key : String) (raw : List (String × MetricOccurrence))
    (h : ∀ ko ∈ raw, ko.1 ≠ key) : occurrencesOfKey key raw = [] := by
  rw [occurrencesOfKey, List.filterMap_eq_nil_iff]
  intro ko hko
  rw [if_neg (h ko hko)]

/-- Any occurrence reaching the merge step is "ALL"-scoped or carries the ID of
one of the analyzed instances. -/
lemma rawMetricsOf_mem {instances : List ProcessInstance} {k : String}
    {o : MetricOccurrence} (h : (k, o) ∈ rawMetricsOf instances) :
    o.instanceID = "ALL" ∨ ∃ pi ∈ instances, o.instanceID = pi.id := by
  rw [rawMetricsOf] at h
  rcases List.mem_append.mp h with hm | hm
  rcases List.mem_append.mp hm with hm' | hm'
  rcases List.mem_append.mp hm' with hm'' | hm''
  rcases List.mem_append.mp hm'' with hm3 | hm3
  rcases List.mem_append.mp hm3 with hm4 | hm4
  · exact Or.inr (collectLoopingMetrics_mem hm4).2
  · exact (collectDurationMetrics_mem hm4).2
  · exact Or.inr (collectManualStageMetrics_mem hm3).2
  · exact Or.inl (collectComplexityMetrics_mem hm'').2
  · exact Or.inl (collectCompletionMetrics_mem hm').2
  · exact Or.inl (collectErrorMetrics_mem hm).2

lemma convertInstance_id (pi : ProcessInstance) : (convertInstance pi).id = pi.id := rfl

lemma getProcessInstances_id {st : BuilderState} {pi : ProcessInstance}
    (h : pi ∈ getProcessInstances st) : pi.id = "" := by
  simp only [getProcessInstances, List.mem_map] at h
  rcases h with ⟨kv, _, rfl⟩
  rfl

lemma getProcessInstances_result {st : BuilderState} {pi : ProcessInstance}
    (h : pi ∈ getProcessInstances st) : ∀ e ∈ pi.events, e.result = "" := by
  simp only [getProcessInstances, List.mem_map] at h
  rcases h with ⟨kv, _, rfl⟩
  intro e he
  simp only [List.mem_map] at he
  rcases he with ⟨e', _, rfl⟩
  rfl

lemma valuesA_upsertA_mem {α : Type} {k : String} {x v : α} {m : List (String × α)}
    (h : v ∈ valuesA (upsertA k x m)) : v ∈ valuesA m ∨ v = x := by
  induction m with
  | nil =>
      simp [valuesA, upsertA] at h
      exact Or.inr h
  | cons kv rest ih =>
      rcases kv with ⟨k', v'⟩
      rw [upsertA] at h
      split at h
      · simp only [valuesA, List.map_cons, List.mem_cons] at h ⊢
        rcases h with h | h
        · exact Or.inr h
        · exact Or.inl (Or.inr h)
      · simp only [valuesA, List.map_cons, List.mem_cons] at h ⊢
        rcases h with h | h
        · exact Or.inl (Or.inl h)
        · rcases ih h with h' | h'
          · exact Or.inl (Or.inr h')
          · exact Or.inr h'

lemma instancesMapOf_values_mem {pis : List ProcessInstance} {v : ProcessInstance}
    (h : v ∈ valuesA (instancesMapOf pis)) : ∃ pi ∈ pis, v = convertInstance pi := by
  suffices haux : ∀ (l : List ProcessInstance) (m : List (String × ProcessInstance)),
      v ∈ valuesA (l.foldl (fun m pi => upsertA pi.id (convertInstance pi) m) m) →
      v ∈ valuesA m ∨ ∃ pi ∈ l, v = convertInstance pi by
    rcases haux pis [] h with hv | hv
    · simp [valuesA] at hv
    · exact hv
  intro l
  induction l with
  | nil => intro m hm; exact Or.inl hm
  | cons pi rest ih =>
      intro m hm
      rw [List.foldl_cons] at hm
      rcases ih _ hm with hv | hv
      · rcases valuesA_upsertA_mem hv with hv' | hv'
        · exact Or.inl hv'
        · exact Or.inr ⟨pi, by simp, hv'⟩
      · rcases hv with ⟨q, hq, hveq⟩
        exact Or.inr ⟨q, by simp [hq], hveq⟩

lemma fold_upsert_empty_id :
    ∀ (pis : List ProcessInstance) (v : ProcessInstance),
      (∀ pi ∈ pis, pi.id = "") →
      ∃ w, pis.foldl (fun m pi => upsertA pi.id (convertInstance pi) m) [("", v)] = [("", w)]
  | [], v, _ => ⟨v, rfl⟩
  | pi :: rest, v, h => by
      have hid : pi.id = "" := h pi (by simp)
      rw [List.foldl_cons]
      have hstep : upsertA pi.id (convertInstance pi) [("", v)] = [("", convertInstance pi)] := by
        rw [hid]
        rfl
      rw [hstep]
      exact fold_upsert_empty_id rest (convertInstance pi) fun q hq => h q (by simp [hq])

/-- When every instance has the empty ID, the keyed map collapses to exactly
one entry under the key "". -/
lemma instancesMapOf_collapses {pis : List ProcessInstance}
    (h : ∀ pi ∈ pis, pi.id = "") (hne : pis ≠ []) :
    ∃ w, instancesMapOf pis = [("", w)] := by
  rcases pis with _ | ⟨pi, rest⟩
  · exact absurd rfl hne
  · rw [instancesMapOf, List.foldl_cons]
    have hid : pi.id = "" := h pi (by simp)
    have hstep : upsertA pi.id (convertInstance pi) [] = [("", convertInstance pi)] := by
      rw [hid]
      rfl
    rw [hstep]
    exact fold_upsert_empty_id rest (convertInstance pi) fun q hq => h q (by simp [hq])

/-- C1: for every non-empty ingested log, every ProcessInstance handed to the
Analyzer has the empty-string ID, the ID-keyed instance map built by
GetMetricsReport has exactly one entry, the reported total_process_instances
is 1 regardless of how many distinct case identifiers the log contains, and
every per-instance occurrence (anything not "ALL"-scoped) carries the empty
InstanceID. -/
theorem c1_instance_ids_collapse (st : BuilderState) (hne : st.sessionMap ≠ []) :
    (∀ pi ∈ getProcessInstances st, pi.id = "") ∧
    (instancesMapOf (getProcessInstances st)).length = 1 ∧
    (getMetricsReport st).totalProcessInstances = 1 ∧
    ∀ m ∈ (getMetricsReport st).metrics, ∀ o ∈ m.occurrences,
      o.instanceID = "ALL" ∨ o.instanceID = "" := by
  have hids : ∀ pi ∈ getProcessInstances st, pi.id = "" := fun pi h =>
    getProcessInstances_id h
  have hpisne : getProcessInstances st ≠ [] := by
    rw [getProcessInstances]
    simpa using hne
  rcases instancesMapOf_collapses hids hpisne with ⟨w, hw⟩
  refine ⟨hids, by rw [hw]; rfl, ?_, ?_⟩
  · rw [getMetricsReport, hw]
    rfl
  · intro m hm o ho
    rw [getMetricsReport, analyze_metrics] at hm
    rcases List.mem_map.mp hm with ⟨kd, _, rfl⟩
    simp only [finalizeMetric, aggregateKey_eq] at ho
    have hraw := mem_occurrencesOfKey.mp ho
    rcases rawMetricsOf_mem hraw with hall | ⟨pi, hpi, hid⟩
    · exact Or.inl hall
    · rw [hw] at hpi
      simp only [valuesA, List.map_cons, List.map_nil, List.mem_singleton] at hpi
      subst hpi
      have hv : pi ∈ valuesA (instancesMapOf (getProcessInstances st)) := by
        rw [hw]
        simp [valuesA]
      rcases instancesMapOf_values_mem hv with ⟨q, hq, hveq⟩
      right
      rw [hid, hveq, convertInstance_id]
      exact hids q hq

/-- C1 witness: the collapse at a concrete one-session builder state. -/
theorem c1_instance_ids_collapse_witness :
    ((⟨[("case-7", [])], [], [], [], []⟩ : BuilderState).sessionMap ≠ []) ∧
    ((∀ pi ∈ getProcessInstances ⟨[("case-7", [])], [], [], [], []⟩, pi.id = "") ∧
     (instancesMapOf (getProcessInstances ⟨[("case-7", [])], [], [], [], []⟩)).length = 1 ∧
     (getMetricsReport ⟨[("case-7", [])], [], [], [], []⟩).totalProcessInstances = 1 ∧
     ∀ m ∈ (getMetricsReport ⟨[("case-7", [])], [], [], [], []⟩).metrics,
       ∀ o ∈ m.occurrences, o.instanceID = "ALL" ∨ o.instanceID = "") :=
  ⟨by simp, c1_instance_ids_collapse ⟨[("case-7", [])], [], [], [], []⟩ (by simp)⟩

/-! ### Claim C6: the outcome field never reaches the error detector -/

lemma collectErrorMetrics_no_error {instances : List ProcessInstance}
    (h : ∀ pi ∈ instances, hasError pi = false) : collectErrorMetrics instances = [] := by
  rw [collectErrorMetrics]
  have hf : instances.filter hasError = [] :=
    List.filter_eq_nil_iff.mpr fun pi hpi => by simp [h pi hpi]
  rw [hf]
  simp

/-- In the merged raw results, the "High Error Rate" key receives occurrences
only from collectErrorMetrics (all other collectors emit different keys). -/
lemma occurrencesOfKey_highErrorRate (instances : List ProcessInstance) :
    occurrencesOfKey "High Error Rate" (rawMetricsOf instances) =
      occurrencesOfKey "High Error Rate" (collectErrorMetrics instances) := by
  rw [rawMetricsOf]
  repeat rw [occurrencesOfKey_append]
  rw [occurrencesOfKey_eq_nil _ (collectLoopingMetrics instances),
    occurrencesOfKey_eq_nil _ (collectDurationMetrics instances),
    occurrencesOfKey_eq_nil _ (collectManualStageMetrics instances),
    occurrencesOfKey_eq_nil _ (collectComplexityMetrics instances),
    occurrencesOfKey_eq_nil _ (collectCompletionMetrics instances)]
  · simp
  · rintro ⟨k, o⟩ hko
    rcases (collectCompletionMetrics_mem hko).1 with rfl
    simp
  · rintro ⟨k, o⟩ hko
    rcases (collectComplexityMetrics_mem hko).1 with rfl
    simp
  · rintro ⟨k, o⟩ hko
    rcases (collectManualStageMetrics_mem hko).1 with rfl
    simp
  · rintro ⟨k, o⟩ hko
    rcases (collectDurationMetrics_mem hko).1 with rfl | rfl | rfl <;> simp
  · rintro ⟨k, o⟩ hko
    rcases (collectLoopingMetrics_mem hko).1 with rfl | rfl | rfl | rfl | rfl <;> simp

/-- C6: BuildGraph never reads the optional outcome field (domain.Event has no
such field), so every event the Analyzer sees has the empty-string result; the
High Error Rate metric of the pipeline's report therefore has no occurrences
and a false Exceeded flag for every builder state — even though the detector
itself, fed an instance whose event carries the "error" outcome, does emit the
occurrence the claim describes. -/
theorem c6_outcome_never_propagated (st : BuilderState) :
    (∀ pi ∈ valuesA (instancesMapOf (getProcessInstances st)),
      ∀ e ∈ pi.events, e.result = "") ∧
    ((getMetricsReport st).metrics.getD 11 default).definition.name = "Высокий процент ошибок" ∧
    ((getMetricsReport st).metrics.getD 11 default).occurrences = [] ∧
    ((getMetricsReport st).metrics.getD 11 default).exceeded = false ∧
    collectErrorMetrics [⟨"s1", [⟨"s1", 1, "Этап A", "error"⟩]⟩] =
      [("High Error Rate", ⟨"ALL", 1, 0, ""⟩)] := by
  have hres : ∀ pi ∈ valuesA (instancesMapOf (getProcessInstances st)),
      ∀ e ∈ pi.events, e.result = "" := by
    intro pi hpi e he
    rcases instancesMapOf_values_mem hpi with ⟨q, hq, rfl⟩
    simp only [convertInstance, List.mem_map] at he
    rcases he with ⟨e', he', rfl⟩
    exact getProcessInstances_result hq e' he'
  have hnoerr : ∀ pi ∈ valuesA (instancesMapOf (getProcessInstances st)),
      hasError pi = false := by
    intro pi hpi
    rw [hasError, List.any_eq_false]
    intro e he
    simp [hres pi hpi e he]
  have herm : collectErrorMetrics (valuesA (instancesMapOf (getProcessInstances st))) = [] :=
    collectErrorMetrics_no_error hnoerr
  have hmet : (getMetricsReport st).metrics.getD 11 default =
      finalizeMetric (aggregateKey "High Error Rate"
        ⟨"Высокий процент ошибок", "Качество",
         "Сравнение количества ошибок с успешными экземплярами",
         "Нестабильность процесса, превышение ошибок над успешными выполнениями.", 0⟩
        (rawMetricsOf (valuesA (instancesMapOf (getProcessInstances st))))) := by
    rw [getMetricsReport, analyze_metrics, metricCatalog]
    rfl
  have hocc : occurrencesOfKey "High Error Rate"
      (rawMetricsOf (valuesA (instancesMapOf (getProcessInstances st)))) = [] := by
    rw [occurrencesOfKey_highErrorRate, herm]
    rfl
  refine ⟨hres, ?_, ?_, ?_, by decide⟩
  · rw [hmet, aggregateKey_eq]
    rfl
  · rw [hmet, aggregateKey_eq]
    simp only [finalizeMetric, hocc]
  · rw [hmet, aggregateKey_eq]
    simp only [finalizeMetric, hocc]
    rfl

/-! ### Dissection of collectDurationMetrics and claim C7 -/

lemma collectDurationMetrics_eq (instances : List ProcessInstance) :
    collectDurationMetrics instances =
      if (collectDurations instances).length = 0 then []
      else anomalyOccsOf instances ++ stageTrendOccsOf instances ++ instTrendOccsOf instances :=
  rfl

lemma stageTrendOccsOf_mem {instances : List ProcessInstance} {k : String}
    {o : MetricOccurrence} (h : (k, o) ∈ stageTrendOccsOf instances) :
    k = "Increasing Stage Duration Trend" := by
  rw [stageTrendOccsOf] at h
  split at h
  · split at h
    · simp only [List.mem_singleton, Prod.mk.injEq] at h
      exact h.1
    · cases h
  · cases h

lemma instTrendOccsOf_mem {instances : List ProcessInstance} {k : String}
    {o : MetricOccurrence} (h : (k, o) ∈ instTrendOccsOf instances) :
    k = "Increasing Process Instance Duration Trend" := by
  rw [instTrendOccsOf] at h
  split at h
  · split at h
    · split at h
      · simp only [List.mem_singleton, Prod.mk.injEq] at h
        exact h.1
      · cases h
    · cases h
  · cases h

lemma anomalyOccsOf_mem {instances : List ProcessInstance} {k : String}
    {o : MetricOccurrence} (h : (k, o) ∈ anomalyOccsOf instances) :
    k = "Anomalously Long Stage" := by
  rw [anomalyOccsOf] at h
  split at h
  · exact (rescanOccs_mem h).1
  · cases h

lemma occurrencesOfKey_all {key : String} (raw : List (String × MetricOccurrence))
    (h : ∀ ko ∈ raw, ko.1 = key) : occurrencesOfKey key raw = raw.map Prod.snd := by
  induction raw with
  | nil => rfl
  | cons ko rest ih =>
      rw [occurrencesOfKey, List.filterMap_cons, if_pos (h ko (by simp)), List.map_cons]
      exact congrArg _ (ih fun x hx => h x (by simp [hx]))

lemma consecutivePairsM_eq_zip : ∀ evs : List MEvent,
    consecutivePairsM evs = evs.zip evs.tail
  | [] => rfl
  | [_] => rfl
  | a :: b :: rest => by
      rw [consecutivePairsM, consecutivePairsM_eq_zip (b :: rest)]
      rfl

lemma pairsAt_eq_zip (evs : List MEvent) :
    (List.range (evs.length - 1)).map (fun i => (evs.getD i default, evs.getD (i + 1) default)) =
      evs.zip evs.tail := by
  apply List.ext_getElem
  · simp [List.length_zip, List.length_tail]
  · intro i h1 h2
    have hi : i < evs.length - 1 := by simpa using h1
    have hi1 : i < evs.length := by omega
    have hi2 : i + 1 < evs.length := by omega
    have hit : i < evs.tail.length := by simp [List.length_tail]; omega
    simp only [List.getElem_map, List.getElem_range, List.getElem_zip, List.getElem_tail]
    rw [List.getD_eq_getElem _ _ hi1, List.getD_eq_getElem _ _ hi2]

lemma idxFrom_zero (n : ℕ) : idxFrom 0 n = List.range n := by
  rw [idxFrom, Nat.sub_zero, List.range_eq_range']

lemma rescanOccs_map_snd (instances : List ProcessInstance) (threshold : ℚ) :
    (rescanOccs instances threshold).map Prod.snd =
      instances.flatMap fun pi =>
        (consecutivePairsM pi.events).filterMap fun pq =>
          if threshold < pq.2.timestamp - pq.1.timestamp then
            some ⟨pi.id, pq.2.timestamp - pq.1.timestamp, 0, ""⟩
          else none := by
  rw [rescanOccs, List.map_flatMap]
  refine List.flatMap_congr ?_  -- hoping this exists; else congrArg/funext
  intro pi _
  rw [List.map_filterMap, consecutivePairsM_eq_zip, ← pairsAt_eq_zip, List.filterMap_map,
    idxFrom_zero]
  apply List.filterMap_congr
  intro i _
  by_cases hc : threshold <
      (pi.events.getD (i + 1) default).timestamp - (pi.events.getD i default).timestamp
  · simp [Function.comp, hc]
  · simp [Function.comp, hc]

/-- C7: the Anomalously Long Stage detector yields nothing with fewer than 4
collected durations; with ≥ 4 it re-scans every consecutive pair of every
session against the threshold Q3 + 1.5·(Q3−Q1), the quartiles read at the
rounded indices of the sorted duration list, emitting one occurrence (value =
the duration in seconds) per pair strictly above the threshold. -/
theorem c7_anomalous_stage_iqr (instances : List ProcessInstance) :
    occurrencesOfKey "Anomalously Long Stage" (collectDurationMetrics instances) =
      anomalySpecOccs instances := by
  rw [collectDurationMetrics_eq, anomalySpecOccs]
  by_cases h0 : (collectDurations instances).length = 0
  · rw [if_pos h0, if_pos (by omega)]
    rfl
  · rw [if_neg h0, occurrencesOfKey_append, occurrencesOfKey_append,
      occurrencesOfKey_eq_nil _ (stageTrendOccsOf instances)
        (fun ko hko => by rcases ko with ⟨k, o⟩; rw [stageTrendOccsOf_mem hko]; simp),
      occurrencesOfKey_eq_nil _ (instTrendOccsOf instances)
        (fun ko hko => by rcases ko with ⟨k, o⟩; rw [instTrendOccsOf_mem hko]; simp)]
    simp only [List.append_nil]
    rw [anomalyOccsOf]
    by_cases h4 : 4 ≤ (collectDurations instances).length
    · rw [if_pos h4, if_neg (by omega),
        occurrencesOfKey_all _ (fun ko hko => by rcases ko with ⟨k, o⟩; exact (rescanOccs_mem hko).1),
        rescanOccs_map_snd]
      have hth : anomalyThresholdOf instances =
          (sortQ (collectDurations instances)).getD
            (goRoundNat ((((collectDurations instances).length - 1 : ℕ) : ℚ) * (3/4))) 0 +
          1.5 * ((sortQ (collectDurations instances)).getD
              (goRoundNat ((((collectDurations instances).length - 1 : ℕ) : ℚ) * (3/4))) 0 -
            (sortQ (collectDurations instances)).getD
              (goRoundNat ((((collectDurations instances).length - 1 : ℕ) : ℚ) * (1/4))) 0) := by
        rw [anomalyThresholdOf, durations2Of, if_pos h4]
      rw [hth]
    · rw [if_neg h4, if_pos (by omega)]
      rfl

/-! ### Claim C3: the 5-session variability scenario through the pipeline -/

/-- In the merged raw results, the "High Process Variability" key receives
occurrences only from collectComplexityMetrics. -/
lemma occurrencesOfKey_variability (instances : List ProcessInstance) :
    occurrencesOfKey "High Process Variability" (rawMetricsOf instances) =
      occurrencesOfKey "High Process Variability" (collectComplexityMetrics instances) := by
  rw [rawMetricsOf]
  repeat rw [occurrencesOfKey_append]
  rw [occurrencesOfKey_eq_nil _ (collectLoopingMetrics instances),
    occurrencesOfKey_eq_nil _ (collectDurationMetrics instances),
    occurrencesOfKey_eq_nil _ (collectManualStageMetrics instances),
    occurrencesOfKey_eq_nil _ (collectCompletionMetrics instances),
    occurrencesOfKey_eq_nil _ (collectErrorMetrics instances)]
  · simp
  · rintro ⟨k, o⟩ hko
    rcases (collectErrorMetrics_mem hko).1 with rfl
    simp
  · rintro ⟨k, o⟩ hko
    rcases (collectCompletionMetrics_mem hko).1 with rfl
    simp
  · rintro ⟨k, o⟩ hko
    rcases (collectManualStageMetrics_mem hko).1 with rfl
    simp
  · rintro ⟨k, o⟩ hko
    rcases (collectDurationMetrics_mem hko).1 with rfl | rfl | rfl <;> simp
  · rintro ⟨k, o⟩ hko
    rcases (collectLoopingMetrics_mem hko).1 with rfl | rfl | rfl | rfl | rfl <;> simp

/-- C3: ingesting the 5-session log (4 × [Start,X,End], 1 × [Start,Y,Z,End])
and asking for the metrics report does NOT produce the claimed outcome: the
ID-collapse of GetProcessInstances leaves a single analyzed instance, so the
High Process Variability detector sees 1 unique path over 1 instance, emits an
occurrence with value 100.0 and the metric's Exceeded flag is true — whereas
the detector arithmetic the claim describes (2 unique paths / 5 instances =
40.0, below the threshold 80, no occurrence) does hold on the intact
five-instance mapping. -/
theorem c3_variability_scenario_diverges :
    (valuesA (instancesMapOf (getProcessInstances ⟨c3Sessions, [], [], [], []⟩))).length = 1 ∧
    ((getMetricsReport ⟨c3Sessions, [], [], [], []⟩).metrics.getD 9 default).definition.name =
      "Высокая вариативность процесса" ∧
    ((getMetricsReport ⟨c3Sessions, [], [], [], []⟩).metrics.getD 9 default).occurrences =
      [⟨"ALL", 100, 0, ""⟩] ∧
    ((getMetricsReport ⟨c3Sessions, [], [], [], []⟩).metrics.getD 9 default).exceeded = true ∧
    (((c3FiveInstances.map fun pi => pathString pi.events).dedup.length : ℚ) /
        (c3FiveInstances.length : ℚ) * 100 = 40 ∧
      collectComplexityMetrics c3FiveInstances = []) := by
  have hvals : valuesA (instancesMapOf (getProcessInstances ⟨c3Sessions, [], [], [], []⟩)) =
      [⟨"", [⟨"c5", 10, "Start", ""⟩, ⟨"c5", 20, "Y", ""⟩, ⟨"c5", 30, "Z", ""⟩,
        ⟨"c5", 40, "End", ""⟩]⟩] := by with_unfolding_all decide
  have hmet : (getMetricsReport ⟨c3Sessions, [], [], [], []⟩).metrics.getD 9 default =
      finalizeMetric (aggregateKey "High Process Variability"
        ⟨"Высокая вариативность процесса", "Сложность",
         "Отношение уникальных путей к общему числу экземпляров (>80%)",
         "Каждый путь уникален — невозможность стандартизации, визуализации и оптимизации.", 80⟩
        (rawMetricsOf (valuesA (instancesMapOf (getProcessInstances ⟨c3Sessions, [], [], [], []⟩))))) := by
    rw [getMetricsReport, analyze_metrics, metricCatalog]
    rfl
  have hocc : occurrencesOfKey "High Process Variability"
      (rawMetricsOf (valuesA (instancesMapOf (getProcessInstances ⟨c3Sessions, [], [], [], []⟩)))) =
      [⟨"ALL", 100, 0, ""⟩] := by
    rw [occurrencesOfKey_variability, hvals]
    with_unfolding_all decide
  refine ⟨by rw [hvals]; rfl, ?_, ?_, ?_, by with_unfolding_all decide,
    by with_unfolding_all decide⟩
  · rw [hmet, aggregateKey_eq]
    rfl
  · rw [hmet, aggregateKey_eq]
    simp only [finalizeMetric, hocc]
  · rw [hmet, aggregateKey_eq]
    simp only [finalizeMetric, hocc]
    rfl

/-! ### Claim C5: which duration list feeds the stage-trend regression -/

/-- Extraction of the stage-trend occurrences from collectDurationMetrics:
they are exactly an OLS fit over the post-IQR-step list (sorted when ≥ 4
durations were collected). -/
lemma stageTrend_extraction (instances : List ProcessInstance) :
    occurrencesOfKey "Increasing Stage Duration Trend" (collectDurationMetrics instances) =
      stageTrendSpecSorted instances := by
  rw [collectDurationMetrics_eq, stageTrendSpecSorted]
  by_cases h0 : (collectDurations instances).length = 0
  · rw [if_pos h0]
    have hnil : collectDurations instances = [] := List.length_eq_zero.mp h0
    simp [hnil, occurrencesOfKey]
  · have hne : ¬(collectDurations instances = []) := fun hh => h0 (by simp [hh])
    rw [if_neg h0, occurrencesOfKey_append, occurrencesOfKey_append,
      occurrencesOfKey_eq_nil _ (anomalyOccsOf instances)
        (fun ko hko => by rcases ko with ⟨k, o⟩; rw [anomalyOccsOf_mem hko]; simp),
      occurrencesOfKey_eq_nil _ (instTrendOccsOf instances)
        (fun ko hko => by rcases ko with ⟨k, o⟩; rw [instTrendOccsOf_mem hko]; simp),
      occurrencesOfKey_all (stageTrendOccsOf instances)
        (fun ko hko => by rcases ko with ⟨k, o⟩; exact stageTrendOccsOf_mem hko)]
    simp only [List.nil_append, List.append_nil]
    rw [stageTrendOccsOf, if_neg hne]
    simp only [durations2Of]
    cases hre : (calculateLinearRegression
        (if 4 ≤ (collectDurations instances).length then sortQ (collectDurations instances)
          else collectDurations instances)).1 with
    | none => rfl
    | some s =>
        dsimp only
        by_cases ht : trendAngleExceeded s
        · rw [if_pos ht, if_pos ht]
          rfl
        · rw [if_neg ht, if_neg ht]
          rfl

/-- atan(33) in degrees exceeds 5 (indeed atan(33) > atan(1) = π/4 = 45°). -/
lemma trendAngleExceeded_of_33 : trendAngleExceeded 33 := by
  rw [trendAngleExceeded]
  have hπ : (0 : ℝ) < Real.pi := Real.pi_pos
  have h1 : Real.pi / 4 < Real.arctan ((33 : ℚ) : ℝ) := by
    have hm := Real.arctan_strictMono (show (1 : ℝ) < ((33 : ℚ) : ℝ) by norm_num)
    rwa [Real.arctan_one] at hm
  rw [gt_iff_lt, lt_div_iff₀ hπ]
  show 5 * Real.pi < Real.arctan ((33 : ℚ) : ℝ) * 180
  set A := Real.arctan ((33 : ℚ) : ℝ) with hA
  clear_value A
  linarith

/-- atan(−33) in degrees is negative, hence does not exceed 5. -/
lemma not_trendAngleExceeded_neg33 : ¬ trendAngleExceeded (-33) := by
  rw [trendAngleExceeded]
  have hπ : (0 : ℝ) < Real.pi := Real.pi_pos
  intro h
  rw [gt_iff_lt, lt_div_iff₀ hπ] at h
  have hc : ((-33 : ℚ) : ℝ) = -((33 : ℚ) : ℝ) := by push_cast; ring
  rw [hc, Real.arctan_neg] at h
  have hpos : 0 < Real.arctan ((33 : ℚ) : ℝ) := by
    have hm := Real.arctan_strictMono (show (0 : ℝ) < ((33 : ℚ) : ℝ) by norm_num)
    rwa [Real.arctan_zero] at hm
  rw [show -Real.arctan ((33 : ℚ) : ℝ) * 180 =
    -(Real.arctan ((33 : ℚ) : ℝ) * 180) by ring] at h
  set A := Real.arctan ((33 : ℚ) : ℝ) with hA
  clear_value A
  linarith

/-- C5 counterexample: for the instance whose collected durations are
[100, 60, 30, 0], the code emits the stage-trend occurrence with slope 33
(the OLS slope of the SORTED list [0, 30, 60, 100]), while the OLS slope of
the collection-order list is −33, whose angle does not exceed 5°, so the
claim's regression over "flattened collection order" predicts no occurrence. -/
theorem c5_collection_order_counterexample :
    occurrencesOfKey "Increasing Stage Duration Trend"
      (collectDurationMetrics [c5Instance]) = [⟨"ALL", 33, 0, ""⟩] ∧
    (calculateLinearRegression (collectDurations [c5Instance])).1 = some (-33) ∧
    stageTrendSpecClaim [c5Instance] = [] := by
  have hds : collectDurations [c5Instance] = [100, 60, 30, 0] := by
    with_unfolding_all decide
  have hsort : sortQ (collectDurations [c5Instance]) = [0, 30, 60, 100] := by
    with_unfolding_all decide
  have hslope : (calculateLinearRegression [0, 30, 60, 100]).1 = some 33 := by
    with_unfolding_all decide
  have hslope' : (calculateLinearRegression (collectDurations [c5Instance])).1 =
      some (-33) := by
    with_unfolding_all decide
  refine ⟨?_, hslope', ?_⟩
  · rw [stageTrend_extraction, stageTrendSpecSorted]
    simp only [hds]
    rw [if_neg (by simp), if_pos (by norm_num), ← hds, hsort, hslope]
    dsimp only
    rw [if_pos trendAngleExceeded_of_33]
  · rw [stageTrendSpecClaim]
    simp only [hds]
    rw [if_neg (by simp), ← hds, hslope']
    dsimp only
    rw [if_neg not_trendAngleExceeded_neg33]

/-- C5 (amended): the Increasing Stage Duration Trend detector fits the OLS
line to the duration list as it stands after the IQR step — sorted ascending
when at least 4 durations were collected (sort.Float64s sorts the shared slice
in place), in flattened collection order only when fewer than 4 — converts the
slope to atan degrees, and emits exactly one ALL-scoped occurrence carrying
the raw slope iff that angle exceeds 5.0°. -/
theorem c5_stage_trend_fits_sorted_list (instances : List ProcessInstance) :
    occurrencesOfKey "Increasing Stage Duration Trend" (collectDurationMetrics instances) =
      stageTrendSpecSorted instances :=
  stageTrend_extraction instances

/-! ### Claim C10: the linear-regression guard -/

lemma regSums_fst : ∀ (data : List ℚ) (j : ℕ) (acc : ℚ × ℚ × ℚ × ℚ),
    (regSums data j acc).1 =
      acc.1 + ∑ i in Finset.range data.length, ((j : ℚ) + (i : ℚ))
  | [], j, acc => by simp [regSums]
  | y :: ys, j, (sx, sy, sxy, sx2) => by
      have hcongr : (∑ i in Finset.range ys.length, (((j + 1 : ℕ) : ℚ) + (i : ℚ))) =
          ∑ i in Finset.range ys.length, ((j : ℚ) + ((i + 1 : ℕ) : ℚ)) := by
        refine Finset.sum_congr rfl fun i _ => ?_
        push_cast
        ring
      rw [regSums, regSums_fst ys (j + 1), hcongr, List.length_cons,
        Finset.sum_range_succ']
      push_cast
      ring

lemma regSums_x2 : ∀ (data : List ℚ) (j : ℕ) (acc : ℚ × ℚ × ℚ × ℚ),
    (regSums data j acc).2.2.2 =
      acc.2.2.2 + ∑ i in Finset.range data.length,
        (((j : ℚ) + (i : ℚ)) * ((j : ℚ) + (i : ℚ)))
  | [], j, acc => by simp [regSums]
  | y :: ys, j, (sx, sy, sxy, sx2) => by
      have hcongr : (∑ i in Finset.range ys.length,
            ((((j + 1 : ℕ) : ℚ) + (i : ℚ)) * (((j + 1 : ℕ) : ℚ) + (i : ℚ)))) =
          ∑ i in Finset.range ys.length,
            (((j : ℚ) + ((i + 1 : ℕ) : ℚ)) * ((j : ℚ) + ((i + 1 : ℕ) : ℚ))) := by
        refine Finset.sum_congr rfl fun i _ => ?_
        push_cast
        ring
      rw [regSums, regSums_x2 ys (j + 1), hcongr, List.length_cons,
        Finset.sum_range_succ']
      push_cast
      ring

lemma sum_range_cast_eq (n : ℕ) :
    (∑ i in Finset.range n, (i : ℚ)) = (n : ℚ) * ((n : ℚ) - 1) / 2 := by
  induction n with
  | zero => simp
  | succ m ih =>
      rw [Finset.sum_range_succ, ih]
      push_cast
      ring

lemma sum_range_sq_cast_eq (n : ℕ) :
    (∑ i in Finset.range n, ((i : ℚ) * (i : ℚ))) =
      (n : ℚ) * ((n : ℚ) - 1) * (2 * (n : ℚ) - 1) / 6 := by
  induction n with
  | zero => simp
  | succ m ih =>
      rw [Finset.sum_range_succ, ih]
      push_cast
      ring

/-- For n ≥ 2 data points with x = 0..n−1, the OLS denominator
n·ΣX² − (ΣX)² equals n²(n−1)(n+1)/12 and is nonzero. -/
lemma regression_denominator_ne_zero {data : List ℚ} (h : 2 ≤ data.length) :
    (data.length : ℚ) * (regSums data 0 (0, 0, 0, 0)).2.2.2 -
      (regSums data 0 (0, 0, 0, 0)).1 * (regSums data 0 (0, 0, 0, 0)).1 ≠ 0 := by
  have hsx : (regSums data 0 (0, 0, 0, 0)).1 =
      (data.length : ℚ) * ((data.length : ℚ) - 1) / 2 := by
    rw [regSums_fst, ← sum_range_cast_eq]
    simp
  have hsx2 : (regSums data 0 (0, 0, 0, 0)).2.2.2 =
      (data.length : ℚ) * ((data.length : ℚ) - 1) * (2 * (data.length : ℚ) - 1) / 6 := by
    rw [regSums_x2, ← sum_range_sq_cast_eq]
    simp
  rw [hsx, hsx2]
  have hn : (2 : ℚ) ≤ (data.length : ℚ) := by exact_mod_cast h
  have hkey : (data.length : ℚ) *
        ((data.length : ℚ) * ((data.length : ℚ) - 1) * (2 * (data.length : ℚ) - 1) / 6) -
        (data.length : ℚ) * ((data.length : ℚ) - 1) / 2 *
          ((data.length : ℚ) * ((data.length : ℚ) - 1) / 2) =
      (data.length : ℚ) * (data.length : ℚ) * ((data.length : ℚ) - 1) *
        ((data.length : ℚ) + 1) / 12 := by
    ring
  rw [hkey]
  have h1 : 0 < (data.length : ℚ) - 1 := by linarith
  have h2 : 0 < (data.length : ℚ) + 1 := by linarith
  have h3 : 0 < (data.length : ℚ) * (data.length : ℚ) := by nlinarith
  exact ne_of_gt (div_pos (mul_pos (mul_pos h3 h1) h2) (by norm_num))

/-- C10 counterexample: a single data point makes the denominator n·ΣX²−(ΣX)²
zero (0·0 − 0), the unguarded division yields a non-finite float (modelled as
`none`), and the NaN propagates into the intercept — the result is not finite. -/
theorem c10_single_point_not_finite :
    calculateLinearRegression [5] = (none, none) ∧ ([5] : List ℚ) ≠ [] := by
  constructor
  · with_unfolding_all decide
  · simp

/-- C10 (amended): the regression returns (0, 0) for an empty input, and for
every input with at least 2 data points the denominator n·ΣX² − (ΣX)² =
n²(n−1)(n+1)/12 is nonzero, so slope and intercept are finite; the only
unguarded case is the single data point, where the denominator is zero and the
result is non-finite (NaN), not a crash. -/
theorem c10_regression_guard (data : List ℚ) (h : 2 ≤ data.length) :
    calculateLinearRegression ([] : List ℚ) = (some 0, some 0) ∧
    ∃ s iv : ℚ, calculateLinearRegression data = (some s, some iv) := by
  refine ⟨by with_unfolding_all decide, ?_⟩
  have hn0 : ¬(data.length = 0) := by omega
  have hden := regression_denominator_ne_zero h
  have hnq : (data.length : ℚ) ≠ 0 := by
    exact_mod_cast hn0
  rw [calculateLinearRegression]
  simp only [if_neg hn0, odiv, if_neg hden, osub, omul, if_neg hnq]
  exact ⟨_, _, rfl⟩

/-- C10 witness: the amended statement instantiated at the two-point data set
[1, 2] (slope 1, intercept 1). -/
theorem c10_regression_guard_witness :
    (2 ≤ ([1, 2] : List ℚ).length) ∧
    (calculateLinearRegression ([] : List ℚ) = (some 0, some 0) ∧
      ∃ s iv : ℚ, calculateLinearRegression [1, 2] = (some s, some iv)) :=
  ⟨by simp, c10_regression_guard [1, 2] (by simp)⟩

/-! ### Claim C8: edge average duration -/

lemma lookupA_upsertA {α : Type} (k k' : String) (v : α) :
    ∀ m : List (String × α),
      lookupA k (upsertA k' v m) = if k' = k then some v else lookupA k m
  | [] => by simp [upsertA, lookupA]
  | (k0, v0) :: rest => by
      by_cases h0 : k0 = k'
      · subst h0
        by_cases hk : k0 = k
        · simp [upsertA, lookupA, hk]
        · simp [upsertA, lookupA, hk]
      · by_cases hk : k0 = k
        · subst hk
          have hne : ¬(k' = k0) := fun hh => h0 hh.symm
          simp [upsertA, lookupA, h0, hne]
        · simp [upsertA, lookupA, h0, hk, lookupA_upsertA k k' v rest]

lemma ecaOf_edgeStep (k k' f t : String) (d : ℚ) (m : List (String × Edge)) :
    ecaOf k (edgeStep k' f t d m) =
      if k' = k then runningMeanStep (ecaOf k m) d else ecaOf k m := by
  rw [edgeStep, ecaOf, lookupA_upsertA]
  by_cases hk : k' = k
  · rw [if_pos hk, if_pos hk]
    rw [ecaOf]
    cases hl : lookupA k' m with
    | none =>
        rw [hk] at hl
        rw [hl]
        simp [runningMeanStep]
    | some e =>
        rw [hk] at hl
        rw [hl]
        simp [runningMeanStep]
  · rw [if_neg hk, if_neg hk]
    rfl

lemma ecaOf_foldl_edgeSteps (k : String) :
    ∀ (ps : List (DEvent × DEvent)) (m : List (String × Edge)),
      ecaOf k (ps.foldl
          (fun m pc =>
            edgeStep (edgeKey pc.1.desc pc.2.desc) pc.1.desc pc.2.desc
              (pc.2.timestamp - pc.1.timestamp) m) m) =
        (ps.filterMap fun pc =>
            if edgeKey pc.1.desc pc.2.desc = k then
              some (pc.2.timestamp - pc.1.timestamp)
            else none).foldl runningMeanStep (ecaOf k m)
  | [], m => rfl
  | pc :: rest, m => by
      rw [List.foldl_cons, List.filterMap_cons, ecaOf_foldl_edgeSteps k rest,
        ecaOf_edgeStep]
      by_cases hk : edgeKey pc.1.desc pc.2.desc = k
      · rw [if_pos hk, if_pos hk, List.foldl_cons]
      · rw [if_neg hk, if_neg hk]

lemma consecutivePairs_nil {evs : List DEvent} (h : ¬ 1 < evs.length) :
    consecutivePairs evs = [] := by
  cases evs with
  | nil => rfl
  | cons a rest =>
      cases rest with
      | nil => rfl
      | cons b rest' => simp at h

lemma ecaOf_processSession (k : String) (evs : List DEvent) (st : BuilderState) :
    ecaOf k (processSession evs st).edgeMap =
      ((consecutivePairs evs).filterMap fun pc =>
          if edgeKey pc.1.desc pc.2.desc = k then
            some (pc.2.timestamp - pc.1.timestamp)
          else none).foldl runningMeanStep (ecaOf k st.edgeMap) := by
  rw [processSession]
  split
  · exact ecaOf_foldl_edgeSteps k (consecutivePairs evs) st.edgeMap
  · next h =>
      rw [consecutivePairs_nil h]
      rfl

lemma ecaOf_foldl_sessions (k : String) :
    ∀ (sessions : List (String × List DEvent)) (st : BuilderState),
      ecaOf k ((sessions.foldl (fun s kv => processSession kv.2 s) st).edgeMap) =
        (keyDurations k sessions).foldl runningMeanStep (ecaOf k st.edgeMap)
  | [], st => rfl
  | kv :: rest, st => by
      rw [keyDurations, List.flatMap_cons, List.foldl_append, List.foldl_cons,
        ecaOf_foldl_sessions k rest, ecaOf_processSession]
      rfl

lemma foldl_runningMeanStep :
    ∀ (ds : List ℚ) (c : ℕ) (a : ℚ), 0 < c ∨ ds ≠ [] →
      ds.foldl runningMeanStep (c, a) =
        (c + ds.length, (a * (c : ℚ) + ds.sum) / ((c : ℚ) + (ds.length : ℚ)))
  | [], c, a, h => by
      rcases h with hc | hne
      · have hc' : ((c : ℚ)) ≠ 0 := by
          exact_mod_cast Nat.pos_iff_ne_zero.mp hc
        simp only [List.foldl_nil, List.length_nil, List.sum_nil, Nat.cast_zero,
          add_zero, Nat.add_zero]
        rw [Prod.mk.injEq]
        refine ⟨rfl, ?_⟩
        field_simp
      · exact absurd rfl hne
  | d :: ds, c, a, _ => by
      rw [List.foldl_cons, runningMeanStep]
      rw [foldl_runningMeanStep ds (c + 1) _ (Or.inl (by omega))]
      have hc1 : ((c : ℚ)) + 1 ≠ 0 := by positivity
      have hlen : ((c : ℚ)) + 1 + (ds.length : ℚ) ≠ 0 := by positivity
      rw [Prod.mk.injEq]
      constructor
      · rw [List.length_cons]
        omega
      · rw [List.sum_cons, List.length_cons]
        push_cast
        field_simp
        ring

lemma keyDurations_perm (k : String) {s1 s2 : List (String × List DEvent)}
    (h : s1.Perm s2) :
    (keyDurations k s1).length = (keyDurations k s2).length ∧
      (keyDurations k s1).sum = (keyDurations k s2).sum := by
  have hmap := h.map fun kv : String × List DEvent =>
    (consecutivePairs kv.2).filterMap fun pc =>
      if edgeKey pc.1.desc pc.2.desc = k then some (pc.2.timestamp - pc.1.timestamp)
      else none
  constructor
  · rw [keyDurations, keyDurations, List.flatMap, List.flatMap,
      List.length_flatten, List.length_flatten]
    exact (hmap.map List.length).sum_eq
  · rw [keyDurations, keyDurations, List.flatMap, List.flatMap,
      List.sum_flatten, List.sum_flatten]
    exact (hmap.map List.sum).sum_eq

/-- C8 counterexample: the edge key is the string `from + "_" + to`, so the
distinct pairs ("a_b","c") and ("a","b_c") collide on the key "a_b_c"; after
processing both sessions the single edge has count 2 and avg_duration 15,
while the durations of the exact pair ("a_b","c") are [10] with mean 10. -/
theorem c8_exact_pair_counterexample :
    ecaOf "a_b_c" (processAllSessions c8Sessions).edgeMap = (2, 15) ∧
    pairDurations "a_b" "c" c8Sessions = [10] ∧
    ((15 : ℚ) ≠ 10) := by
  refine ⟨?_, ?_, by norm_num⟩
  · with_unfolding_all decide
  · with_unfolding_all decide

/-- C8 (amended): after processing all sessions, each edge-map entry's count
is the number of transition durations observed for its key `from + "_" + to`
and its avg_duration is their arithmetic mean, exactly (so it coincides with
the exact (from,to) pair's mean whenever no two pairs share a key), and the
mean is invariant under permuting the sessions — exact in rational arithmetic,
up to floating-point rounding in the Go code. -/
theorem c8_edge_avg_is_mean_per_key (sessions : List (String × List DEvent))
    (k : String) (h : keyDurations k sessions ≠ []) :
    ecaOf k (processAllSessions sessions).edgeMap =
      ((keyDurations k sessions).length,
        (keyDurations k sessions).sum / ((keyDurations k sessions).length : ℚ)) ∧
    ∀ sessions2, sessions.Perm sessions2 →
      (ecaOf k (processAllSessions sessions2).edgeMap).2 =
        (ecaOf k (processAllSessions sessions).edgeMap).2 := by
  have hmain : ∀ ss : List (String × List DEvent), keyDurations k ss ≠ [] →
      ecaOf k (processAllSessions ss).edgeMap =
        ((keyDurations k ss).length,
          (keyDurations k ss).sum / ((keyDurations k ss).length : ℚ)) := by
    intro ss hss
    rw [processAllSessions, ecaOf_foldl_sessions]
    have heca0 : ecaOf k ({ initialBuilder with sessionMap := ss } : BuilderState).edgeMap =
        (0, 0) := rfl
    rw [heca0, foldl_runningMeanStep (keyDurations k ss) 0 0 (Or.inr hss)]
    simp
  refine ⟨hmain sessions h, ?_⟩
  intro sessions2 hperm
  rcases keyDurations_perm k hperm with ⟨hlen, hsum⟩
  have h2 : keyDurations k sessions2 ≠ [] := by
    intro hnil
    rw [hnil] at hlen
    exact h (List.length_eq_zero.mp hlen)
  rw [hmain sessions h, hmain sessions2 h2]
  simp only [hlen, hsum]

/-- C8 witness: the amended statement at the two colliding sessions and key
"a_b_c" (durations [10, 20], count 2, mean 15). -/
theorem c8_edge_avg_is_mean_per_key_witness :
    (keyDurations "a_b_c" c8Sessions ≠ []) ∧
    (ecaOf "a_b_c" (processAllSessions c8Sessions).edgeMap =
      ((keyDurations "a_b_c" c8Sessions).length,
        (keyDurations "a_b_c" c8Sessions).sum /
          ((keyDurations "a_b_c" c8Sessions).length : ℚ)) ∧
     ∀ sessions2, c8Sessions.Perm sessions2 →
       (ecaOf "a_b_c" (processAllSessions sessions2).edgeMap).2 =
         (ecaOf "a_b_c" (processAllSessions c8Sessions).edgeMap).2) :=
  ⟨by with_unfolding_all decide,
   c8_edge_avg_is_mean_per_key c8Sessions "a_b_c" (by with_unfolding_all decide)⟩

/-! ### Claim C4: build does not replace prior state -/

lemma processSession_sessionMap (evs : List DEvent) (st : BuilderState) :
    (processSession evs st).sessionMap = st.sessionMap := by
  rw [processSession]
  split <;> rfl

lemma processSession_graphNodeRefs (evs : List DEvent) (st : BuilderState) :
    (processSession evs st).graphNodeRefs = st.graphNodeRefs := by
  rw [processSession]
  split <;> rfl

lemma foldl_processSession_sessionMap :
    ∀ (l : List (String × List DEvent)) (st : BuilderState),
      (l.foldl (fun s kv => processSession kv.2 s) st).sessionMap = st.sessionMap
  | [], _ => rfl
  | kv :: rest, st => by
      rw [List.foldl_cons, foldl_processSession_sessionMap rest,
        processSession_sessionMap]

lemma foldl_processSession_graphNodeRefs :
    ∀ (l : List (String × List DEvent)) (st : BuilderState),
      (l.foldl (fun s kv => processSession kv.2 s) st).graphNodeRefs = st.graphNodeRefs
  | [], _ => rfl
  | kv :: rest, st => by
      rw [List.foldl_cons, foldl_processSession_graphNodeRefs rest,
        processSession_graphNodeRefs]

lemma boundaryEdgeStep_sessionMap (key f t : String) (st : BuilderState) :
    (boundaryEdgeStep key f t st).sessionMap = st.sessionMap := rfl

lemma boundaryEdgeStep_graphNodeRefs (key f t : String) (st : BuilderState) :
    (boundaryEdgeStep key f t st).graphNodeRefs = st.graphNodeRefs := rfl

lemma boundarySessionStep_sessionMap (st : BuilderState) (evs : List DEvent) :
    (boundarySessionStep st evs).sessionMap = st.sessionMap := by
  cases evs <;> rfl

lemma boundarySessionStep_graphNodeRefs (st : BuilderState) (evs : List DEvent) :
    (boundarySessionStep st evs).graphNodeRefs = st.graphNodeRefs := by
  cases evs <;> rfl

lemma foldl_boundary_sessionMap :
    ∀ (l : List (String × List DEvent)) (st : BuilderState),
      (l.foldl (fun s kv => boundarySessionStep s kv.2) st).sessionMap = st.sessionMap
  | [], _ => rfl
  | kv :: rest, st => by
      rw [List.foldl_cons, foldl_boundary_sessionMap rest, boundarySessionStep_sessionMap]

lemma foldl_boundary_graphNodeRefs :
    ∀ (l : List (String × List DEvent)) (st : BuilderState),
      (l.foldl (fun s kv => boundarySessionStep s kv.2) st).graphNodeRefs = st.graphNodeRefs
  | [], _ => rfl
  | kv :: rest, st => by
      rw [List.foldl_cons, foldl_boundary_graphNodeRefs rest,
        boundarySessionStep_graphNodeRefs]

lemma finalizeGraph_sessionMap (st : BuilderState) :
    (finalizeGraph st).sessionMap = st.sessionMap := by
  rw [finalizeGraph]
  rw [foldl_boundary_sessionMap]
  exact foldl_processSession_sessionMap st.sessionMap st

lemma finalizeGraph_graphNodeRefs (st : BuilderState) :
    ∃ extra, (finalizeGraph st).graphNodeRefs = st.graphNodeRefs ++ extra := by
  rw [finalizeGraph]
  rw [foldl_boundary_graphNodeRefs]
  exact ⟨_, by rw [foldl_processSession_graphNodeRefs, List.append_assoc]⟩

lemma processEvent_graphNodeRefs (e : DEvent) (st : BuilderState) :
    (processEvent e st).graphNodeRefs = st.graphNodeRefs := rfl

lemma buildEvents_ok_graphNodeRefs (tp : TimeParser) :
    ∀ (rs : List (List String)) (st st' : BuilderState),
      buildEvents tp rs st = Except.ok st' → st'.graphNodeRefs = st.graphNodeRefs
  | [], st, st', h => by
      cases h
      rfl
  | r :: rs, st, st', h => by
      rw [buildEvents] at h
      cases hr : recordCheck tp r with
      | error e => rw [hr] at h; cases h
      | ok ev =>
          rw [hr] at h
          exact buildEvents_ok_graphNodeRefs tp rs (processEvent ev st) st' h

lemma buildEvents_sessionMap_congr (tp : TimeParser) :
    ∀ (rs : List (List String)) (st st2 : BuilderState),
      st2.sessionMap = st.sessionMap →
      ∀ st', buildEvents tp rs st = Except.ok st' →
        ∃ st2', buildEvents tp rs st2 = Except.ok st2' ∧
          st2'.sessionMap = st'.sessionMap
  | [], st, st2, hsm, st', h => by
      cases h
      exact ⟨st2, rfl, hsm⟩
  | r :: rs, st, st2, hsm, st', h => by
      rw [buildEvents] at h ⊢
      cases hr : recordCheck tp r with
      | error e => rw [hr] at h; cases h
      | ok ev =>
          rw [hr] at h
          have hsm' : (processEvent ev st2).sessionMap = (processEvent ev st).sessionMap := by
            rw [processEvent, processEvent, hsm]
          exact buildEvents_sessionMap_congr tp rs _ _ hsm' st' h

lemma lookupA_ne_none_of_mem {α : Type} {k : String} {v : α} :
    ∀ {m : List (String × α)}, (k, v) ∈ m → lookupA k m ≠ none := by
  intro m
  induction m with
  | nil => intro h; cases h
  | cons kv rest ih =>
      intro h
      rcases kv with ⟨k0, v0⟩
      rw [lookupA]
      by_cases hk : k0 = k
      · rw [if_pos hk]
        simp
      · rw [if_neg hk]
        rcases List.mem_cons.mp h with heq | hmem
        · cases heq
          exact absurd rfl hk
        · exact ih hmem

lemma buildEvents_preserves_session (tp : TimeParser) :
    ∀ (rs : List (List String)) (st st' : BuilderState),
      buildEvents tp rs st = Except.ok st' →
      ∀ key, lookupA key st.sessionMap ≠ none → lookupA key st'.sessionMap ≠ none
  | [], st, st', h => by
      cases h
      exact fun _ hk => hk
  | r :: rs, st, st', h => by
      rw [buildEvents] at h
      cases hr : recordCheck tp r with
      | error e => rw [hr] at h; cases h
      | ok ev =>
          rw [hr] at h
          intro key hk
          refine buildEvents_preserves_session tp rs _ _ h key ?_
          rw [processEvent]
          simp only
          rw [lookupA_upsertA]
          split
          · simp
          · exact hk

lemma buildEvents_append (tp : TimeParser) :
    ∀ (r1 r2 : List (List String)) (st : BuilderState),
      buildEvents tp (r1 ++ r2) st =
        match buildEvents tp r1 st with
        | Except.ok st' => buildEvents tp r2 st'
        | Except.error e => Except.error e
  | [], r2, st => rfl
  | r :: rs, r2, st => by
      rw [List.cons_append, buildEvents, buildEvents]
      cases hr : recordCheck tp r with
      | error e => rfl
      | ok ev => exact buildEvents_append tp rs r2 _

lemma buildGraph_ok_inv {tp : TimeParser} {rs : List (List String)}
    {st st' : BuilderState} (h : buildGraph tp rs st = Except.ok st') :
    ∃ b, buildEvents tp rs st = Except.ok b ∧ st' = finalizeGraph b := by
  rw [buildGraph] at h
  cases hb : buildEvents tp rs st with
  | error e => rw [hb] at h; cases h
  | ok b =>
      rw [hb] at h
      cases h
      exact ⟨b, rfl, rfl⟩

/-- C4 counterexample: two successive successful builds do NOT leave the state
of the second build alone — the session from the first build is retained, the
first build's node "A" is re-counted (count 2 although "A" occurs once in the
whole log), and the graph node references are appended again (7 entries, with
"A", "start", "end" duplicated), whereas the fresh second build has 1 session,
no node "A" and 3 node references. -/
theorem c4_build_accumulates_counterexample :
    buildGraph tpSample c4Rec1 initialBuilder = Except.ok c4St1 ∧
    buildGraph tpSample c4Rec2 c4St1 = Except.ok c4St2 ∧
    buildGraph tpSample c4Rec2 initialBuilder = Except.ok c4StFresh ∧
    c4St2.sessionMap ≠ c4StFresh.sessionMap ∧
    c4St2.sessionMap.map Prod.fst = ["a", "b"] ∧
    c4StFresh.sessionMap.map Prod.fst = ["b"] ∧
    lookupA "A" c4St2.nodeMap = some ⟨"A", "A", 2, 2, "blue"⟩ ∧
    lookupA "A" c4StFresh.nodeMap = none ∧
    c4St2.graphNodeRefs = ["A", "start", "end", "A", "B", "start", "end"] ∧
    c4StFresh.graphNodeRefs = ["B", "start", "end"] := by
  with_unfolding_all decide

/-- C4 (amended): a successful build accumulates into, rather than replaces,
the prior internal state: every session of the first build is still present
after the second, the session map after the second build is the one a single
build over the concatenated record sequence would produce, and the first
build's appended graph-node references remain as a prefix of the second
build's. -/
theorem c4_build_accumulates (tp : TimeParser) (r1 r2 : List (List String))
    (st1 st2 : BuilderState)
    (h1 : buildGraph tp r1 initialBuilder = Except.ok st1)
    (h2 : buildGraph tp r2 st1 = Except.ok st2) :
    (∀ kv ∈ st1.sessionMap, lookupA kv.1 st2.sessionMap ≠ none) ∧
    (∃ st12, buildEvents tp (r1 ++ r2) initialBuilder = Except.ok st12 ∧
      st2.sessionMap = st12.sessionMap) ∧
    (∃ extra, st2.graphNodeRefs = st1.graphNodeRefs ++ extra) := by
  rcases buildGraph_ok_inv h1 with ⟨b1, hb1, rfl⟩
  rcases buildGraph_ok_inv h2 with ⟨b2, hb2, rfl⟩
  refine ⟨?_, ?_, ?_⟩
  · intro kv hkv
    rw [finalizeGraph_sessionMap]
    refine buildEvents_preserves_session tp r2 _ _ hb2 kv.1 ?_
    rw [finalizeGraph_sessionMap]
    rw [finalizeGraph_sessionMap] at hkv
    rcases kv with ⟨key, v⟩
    exact lookupA_ne_none_of_mem hkv
  · have hsm : (finalizeGraph b1).sessionMap = b1.sessionMap := finalizeGraph_sessionMap b1
    rcases buildEvents_sessionMap_congr tp r2 (finalizeGraph b1) b1 hsm.symm b2 hb2 with
      ⟨b2', hb2', hsm2⟩
    refine ⟨b2', ?_, ?_⟩
    · rw [buildEvents_append, hb1]
      exact hb2'
    · rw [finalizeGraph_sessionMap]
      exact hsm2.symm
  · rcases finalizeGraph_graphNodeRefs b2 with ⟨extra, hx⟩
    refine ⟨extra, ?_⟩
    rw [hx, buildEvents_ok_graphNodeRefs tp r2 _ _ hb2]

/-- C4 witness: the amended statement at the concrete two builds of the
counterexample. -/
theorem c4_build_accumulates_witness :
    (buildGraph tpSample c4Rec1 initialBuilder = Except.ok c4St1 ∧
      buildGraph tpSample c4Rec2 c4St1 = Except.ok c4St2) ∧
    ((∀ kv ∈ c4St1.sessionMap, lookupA kv.1 c4St2.sessionMap ≠ none) ∧
     (∃ st12, buildEvents tpSample (c4Rec1 ++ c4Rec2) initialBuilder = Except.ok st12 ∧
       c4St2.sessionMap = st12.sessionMap) ∧
     (∃ extra, c4St2.graphNodeRefs = c4St1.graphNodeRefs ++ extra)) :=
  ⟨⟨by with_unfolding_all decide, by with_unfolding_all decide⟩,
   c4_build_accumulates tpSample c4Rec1 c4Rec2 c4St1 c4St2
     (by with_unfolding_all decide) (by with_unfolding_all decide)⟩

/-! ### Claim C9: ingest failure semantics and timestamp format priority -/

lemma tryFormatList_range'_some (tp : TimeParser) (s : String) :
    ∀ (n a : ℕ) (t : ℚ),
      (tryFormatList tp s (List.range' a n) = some t ↔
        ∃ i, a ≤ i ∧ i < a + n ∧ tp.tryFormat i s = some t ∧
          ∀ j, a ≤ j → j < i → tp.tryFormat j s = none)
  | 0, a, t => by
      simp only [List.range'_zero, tryFormatList]
      constructor
      · intro h
        cases h
      · rintro ⟨i, h1, h2, _⟩
        omega
  | n + 1, a, t => by
      rw [List.range'_succ, tryFormatList]
      cases hf : tp.tryFormat a s with
      | some v =>
          constructor
          · intro h
            cases h
            exact ⟨a, le_refl a, by omega, hf, fun j hj1 hj2 => absurd hj1 (by omega)⟩
          · rintro ⟨i, h1, h2, h3, h4⟩
            rcases Nat.eq_or_lt_of_le h1 with rfl | hlt
            · rw [hf] at h3
              exact h3
            · rw [h4 a (le_refl a) hlt] at hf
              cases hf
      | none =>
          rw [tryFormatList_range'_some tp s n (a + 1) t]
          constructor
          · rintro ⟨i, h1, h2, h3, h4⟩
            refine ⟨i, by omega, by omega, h3, fun j hj1 hj2 => ?_⟩
            rcases Nat.eq_or_lt_of_le hj1 with rfl | hlt
            · exact hf
            · exact h4 j (by omega) hj2
          · rintro ⟨i, h1, h2, h3, h4⟩
            have hia : i ≠ a := by
              intro hia
              rw [hia, hf] at h3
              cases h3
            exact ⟨i, by omega, by omega, h3, fun j hj1 hj2 => h4 j (by omega) hj2⟩

lemma parseTime_ok_iff (tp : TimeParser) (s : String) (t : ℚ) :
    parseTime tp s = Except.ok t ↔
      ∃ i, i < 5 ∧ tp.tryFormat i s = some t ∧ ∀ j < i, tp.tryFormat j s = none := by
  rw [parseTime]
  cases hl : tryFormatList tp s (List.range 5) with
  | none =>
      rw [List.range_eq_range'] at hl
      constructor
      · intro h
        cases h
      · rintro ⟨i, h1, h2, h3⟩
        have : tryFormatList tp s (List.range' 0 5) = some t := by
          rw [tryFormatList_range'_some]
          exact ⟨i, by omega, by omega, h2, fun j _ hj => h3 j hj⟩
        rw [this] at hl
        cases hl
  | some v =>
      rw [List.range_eq_range'] at hl
      rw [tryFormatList_range'_some] at hl
      rcases hl with ⟨i, h1, h2, h3, h4⟩
      constructor
      · intro h
        cases h
        exact ⟨i, by omega, h3, fun j hj => h4 j (by omega) hj⟩
      · rintro ⟨i', h1', h2', h3'⟩
        have : i = i' := by
          by_contra hne
          rcases Nat.lt_or_ge i i' with hlt | hge
          · rw [h3' i hlt] at h3
            cases h3
          · have : i' < i := by omega
            rw [h4 i' (by omega) this] at h2'
            cases h2'
        subst this
        rw [h3] at h2'
        cases h2'
        rfl

lemma buildEvents_ok_iff (tp : TimeParser) :
    ∀ (rs : List (List String)) (st : BuilderState),
      (∃ st', buildEvents tp rs st = Except.ok st') ↔
        ∀ r ∈ rs, recordOk tp r = true
  | [], st => by
      simp [buildEvents]
  | r :: rs, st => by
      rw [buildEvents]
      cases hr : recordCheck tp r with
      | error e =>
          constructor
          · rintro ⟨st', h⟩
            cases h
          · intro h
            have := h r (by simp)
            rw [recordOk, hr] at this
            cases this
      | ok ev =>
          constructor
          · rintro ⟨st', h⟩
            intro r' hr'
            rcases List.mem_cons.mp hr' with rfl | hmem
            · rw [recordOk, hr]
            · exact ((buildEvents_ok_iff tp rs _).mp ⟨st', h⟩) r' hmem
          · intro h
            exact (buildEvents_ok_iff tp rs _).mpr fun r' hr' => h r' (by simp [hr'])

lemma buildEvents_first_error (tp : TimeParser) :
    ∀ (pre : List (List String)) (r : List String) (post : List (List String))
      (st : BuilderState),
      (∀ r' ∈ pre, recordOk tp r' = true) → recordOk tp r = false →
      buildEvents tp (pre ++ r :: post) st = Except.error (recordErrMsg tp r)
  | [], r, post, st, _, hbad => by
      rw [List.nil_append, buildEvents]
      cases hr : recordCheck tp r with
      | error e => rw [recordErrMsg, hr]
      | ok ev =>
          rw [recordOk, hr] at hbad
          cases hbad
  | p :: pre, r, post, st, hpre, hbad => by
      rw [List.cons_append, buildEvents]
      cases hp : recordCheck tp p with
      | error e =>
          have := hpre p (by simp)
          rw [recordOk, hp] at this
          cases this
      | ok ev =>
          exact buildEvents_first_error tp pre r post _
            (fun r' h => hpre r' (by simp [h])) hbad

/-- C9: build fails exactly when some record has fewer than 3 fields or a
timestamp matched by no accepted format, propagating the first failing
record's error; otherwise it succeeds; and parseTime tries the fixed format
list in priority order, the first matching format winning, so it returns a
value iff some format matches and every earlier format fails. -/
theorem c9_ingest_first_error (tp : TimeParser) (records : List (List String))
    (st : BuilderState) :
    ((∃ st', buildGraph tp records st = Except.ok st') ↔
      ∀ r ∈ records, recordOk tp r = true) ∧
    (∀ pre r post, records = pre ++ r :: post →
      (∀ r' ∈ pre, recordOk tp r' = true) → recordOk tp r = false →
      buildGraph tp records st = Except.error (recordErrMsg tp r)) ∧
    (∀ s t, parseTime tp s = Except.ok t ↔
      ∃ i, i < 5 ∧ tp.tryFormat i s = some t ∧ ∀ j < i, tp.tryFormat j s = none) := by
  refine ⟨?_, ?_, fun s t => parseTime_ok_iff tp s t⟩
  · rw [buildGraph]
    cases hb : buildEvents tp records st with
    | error e =>
        constructor
        · rintro ⟨st', h⟩
          cases h
        · intro h
          rcases (buildEvents_ok_iff tp records st).mpr h with ⟨st', h'⟩
          rw [h'] at hb
          cases hb
    | ok b =>
        constructor
        · intro _
          exact (buildEvents_ok_iff tp records st).mp ⟨b, hb⟩
        · intro _
          exact ⟨finalizeGraph b, rfl⟩
  · intro pre r post hsplit hpre hbad
    rw [buildGraph, hsplit, buildEvents_first_error tp pre r post st hpre hbad]

/-- C9 witness: with the sample oracle, the two-record log whose second record
has an unrecognised timestamp fails with that record's parse error, a
short-record log fails with the column error, the good log succeeds, and
parseTime picks format 1 for the sample timestamp. -/
theorem c9_ingest_first_error_witness :
    (([["a", "2024-01-01 10:00:00", "A"], ["b", "nonsense", "B"], ["c", "x", "C"]] :
        List (List String)) = [["a", "2024-01-01 10:00:00", "A"]] ++
        ["b", "nonsense", "B"] :: [["c", "x", "C"]]) ∧
    (∀ r' ∈ [["a", "2024-01-01 10:00:00", "A"]], recordOk tpSample r' = true) ∧
    recordOk tpSample ["b", "nonsense", "B"] = false ∧
    buildGraph tpSample
        [["a", "2024-01-01 10:00:00", "A"], ["b", "nonsense", "B"], ["c", "x", "C"]]
        initialBuilder =
      Except.error (recordErrMsg tpSample ["b", "nonsense", "B"]) ∧
    (∃ st', buildGraph tpSample [["a", "2024-01-01 10:00:00", "A"]] initialBuilder =
      Except.ok st') := by
  refine ⟨rfl, by with_unfolding_all decide, by with_unfolding_all decide, ?_, ?_⟩
  · exact (c9_ingest_first_error tpSample
      [["a", "2024-01-01 10:00:00", "A"], ["b", "nonsense", "B"], ["c", "x", "C"]]
      initialBuilder).2.1 [["a", "2024-01-01 10:00:00", "A"]] ["b", "nonsense", "B"]
      [["c", "x", "C"]] rfl (by with_unfolding_all decide) (by with_unfolding_all decide)
  · exact (c9_ingest_first_error tpSample [["a", "2024-01-01 10:00:00", "A"]]
      initialBuilder).1.mpr (by with_unfolding_all decide)

end ProcessMining
